import Mathlib

/-!
Verification development for the MediaX on-demand media transformation cache.

The development shallowly embeds the two executable components of the
repository:

* the Request Normalizer — the CloudFront function
  (`src/functions/image-processing/index.js`, second document: `handler`,
  `resolveOptions`, `getFormatByAccept`, `getOptionValue`), which rewrites an
  incoming request's query parameters into a canonical path-encoded directive
  string; and
* the Transform Engine — the Lambda function
  (`src/functions/url-rewrite/index.js`, second document: `handler`,
  `resolveOptions`, `isSupported`, `transImage`, `transAudio`,
  `computeBitrate`), which downloads the origin object, optionally transforms
  it, uploads the result to the cache bucket and answers with a redirect.

JavaScript strings are modelled by `String`, JavaScript objects used as maps
by association lists, JavaScript `undefined`/absent values by `Option`, and
the S3 / sharp / ffmpeg side effects by oracles in an environment record
together with an explicit trace of the operations the handler attempts.
-/

namespace MediaX

/-! ## JavaScript string primitives -/

/-- The whitespace characters skipped by JavaScript `parseInt`
(ASCII subset: space, tab, LF, VT, FF, CR). -/
def jsWhitespaceChar (c : Char) : Bool :=
  c = ' ' || c = '\t' || c = '\n' || c = '\x0b' || c = '\x0c' || c = '\r'

/-- ASCII lower-casing of one character, as performed by
JavaScript `String.prototype.toLowerCase` on ASCII input. -/
def jsCharLower (c : Char) : Char :=
  if 65 ≤ c.toNat ∧ c.toNat ≤ 90 then Char.ofNat (c.toNat + 32) else c

/-- JavaScript `s.toLowerCase()` (ASCII). -/
def jsToLower (s : String) : String :=
  String.mk (s.data.map jsCharLower)

/-- Numeric value of a decimal digit character, `none` otherwise. -/
def digitVal (c : Char) : Option Nat :=
  if 48 ≤ c.toNat ∧ c.toNat ≤ 57 then some (c.toNat - 48) else none

/-- Numeric value of a hexadecimal digit character, `none` otherwise. -/
def hexVal (c : Char) : Option Nat :=
  if 48 ≤ c.toNat ∧ c.toNat ≤ 57 then some (c.toNat - 48)
  else if 97 ≤ c.toNat ∧ c.toNat ≤ 102 then some (c.toNat - 87)
  else if 65 ≤ c.toNat ∧ c.toNat ≤ 70 then some (c.toNat - 55)
  else none

/-- Parse the longest leading run of decimal digits; `none` if there is
none (JavaScript `parseInt` ignores anything after the digits). -/
def parseDigits (cs : List Char) : Option Nat :=
  let ds := cs.takeWhile (fun c => (digitVal c).isSome)
  if ds.isEmpty then none
  else some (ds.foldl (fun a c => a * 10 + ((digitVal c).getD 0)) 0)

/-- Parse the longest leading run of hexadecimal digits. -/
def parseHexDigits (cs : List Char) : Option Nat :=
  let ds := cs.takeWhile (fun c => (hexVal c).isSome)
  if ds.isEmpty then none
  else some (ds.foldl (fun a c => a * 16 + ((hexVal c).getD 0)) 0)

/-- The unsigned part of JavaScript `parseInt` with no radix argument:
a `0x`/`0X` prefix switches to base 16, otherwise base 10. -/
def parseUnsigned (cs : List Char) : Option Nat :=
  match cs with
  | c1 :: c2 :: rest =>
    if c1 = '0' ∧ (c2 = 'x' ∨ c2 = 'X') then parseHexDigits rest
    else parseDigits cs
  | _ => parseDigits cs

/-- JavaScript `parseInt(s)` (no radix argument): skip leading whitespace,
read an optional sign, then the longest digit prefix; `none` models `NaN`. -/
def jsParseInt (s : String) : Option Int :=
  let cs := s.data.dropWhile jsWhitespaceChar
  match cs with
  | '-' :: rest => (parseUnsigned rest).map (fun n => -(n : Int))
  | '+' :: rest => (parseUnsigned rest).map (fun n => (n : Int))
  | _ => (parseUnsigned cs).map (fun n => (n : Int))

/-- Decimal digit character of `n < 10`. -/
def natDigitChar (n : Nat) : Char := Char.ofNat (48 + n)

/-- Big-endian decimal digits of `n`, driven by explicit fuel so that the
definition is structurally recursive. -/
def natDigits (fuel n : Nat) : List Char :=
  match fuel with
  | 0 => []
  | fuel + 1 =>
    if n < 10 then [natDigitChar n]
    else natDigits fuel (n / 10) ++ [natDigitChar (n % 10)]

/-- JavaScript `Number.prototype.toString` for the natural numbers
produced by the normalizer's clamping. -/
def natToString (n : Nat) : String := String.mk (natDigits (n + 1) n)

/-- JavaScript `String.prototype.split` with a one-character separator,
on character lists: always returns at least one (possibly empty) piece. -/
def splitChars (sep : Char) : List Char → List (List Char)
  | [] => [[]]
  | c :: cs =>
    if c = sep then [] :: splitChars sep cs
    else
      match splitChars sep cs with
      | [] => [[c]]
      | h :: t => (c :: h) :: t

/-- Join character lists with a one-character separator
(inverse of `splitChars`). -/
def joinChars (sep : Char) : List (List Char) → List Char
  | [] => []
  | [x] => x
  | x :: xs => x ++ sep :: joinChars sep xs

/-- JavaScript `s.split(sep)` for a one-character separator. -/
def jsSplit (s : String) (sep : Char) : List String :=
  (splitChars sep s.data).map String.mk

/-- JavaScript `Array.prototype.join(sep)`. -/
def jsJoin (sep : String) : List String → String
  | [] => ""
  | [x] => x
  | x :: xs => x ++ sep ++ jsJoin sep xs

/-- Whether `pre` is a prefix of `l` (decidable, structural). -/
def listPrefixOf [DecidableEq α] : List α → List α → Bool
  | [], _ => true
  | _ :: _, [] => false
  | a :: as, b :: bs => a = b && listPrefixOf as bs

/-- Whether `sub` occurs as a contiguous run inside `l`. -/
def listContainsSub [DecidableEq α] (sub l : List α) : Bool :=
  match l with
  | [] => sub.isEmpty
  | _ :: cs => listPrefixOf sub l || listContainsSub sub cs

/-- JavaScript `s.includes(sub)`. -/
def jsIncludes (s sub : String) : Bool := listContainsSub sub.data s.data

/-- JavaScript `s.startsWith(p)`. -/
def jsStartsWith (s p : String) : Bool := listPrefixOf p.data s.data

/-- JavaScript truthiness of an optional string
(`undefined` and `""` are falsy). -/
def jsTruthy : Option String → Bool
  | none => false
  | some s => !(s = "")

/-! ## Request Normalizer

Embedding of the CloudFront function — `src/functions/image-processing/index.js`
(second document): `SUPPORTED_FORMATS`, `resolveOptions`, `getFormatByAccept`,
`getOptionValue`, `handler`. Query strings are association lists of raw
key/value pairs (the CloudFront event's `querystring` object, in property
order); the `Accept` header is an optional string. -/

namespace Normalizer

/-- The format names the normalizer recognizes, in registry order. -/
def SUPPORTED_FORMATS : List String :=
  ["jpg", "jpeg", "png", "webp", "gif", "tif", "tiff", "avif", "svg",
   "mp3", "aac", "ac3", "flac", "alac", "wav", "mid", "midi"]

/-- The normalizer's `options` object: each recognized key is either absent
(`none`, never assigned) or holds the validated string value. -/
structure Options where
  format : Option String := none
  quality : Option String := none
  width : Option String := none
  height : Option String := none
  bitrate : Option String := none
deriving DecidableEq

/-- The parts of the CloudFront request event the normalizer reads and
writes: `request.uri`, `request.querystring` and `request.headers.accept`. -/
structure CFRequest where
  uri : String
  querystring : List (String × String)
  accept : Option String
deriving DecidableEq

/-- `getFormatByAccept`: first supported format name occurring as a
substring of the lower-cased `Accept` header value. -/
def getFormatByAccept (accept : Option String) : Option String :=
  match accept with
  | none => none
  | some a =>
    if a = "" then none
    else SUPPORTED_FORMATS.find? (fun f => jsIncludes (jsToLower a) f)

/-- `getOptionValue`: `parseInt` the value, require it positive, clamp it to
`maxValue`, and render it back to a string; `none` when dropped. -/
def getOptionValue (v : String) (maxValue : Int) : Option String :=
  match jsParseInt v with
  | none => none
  | some value =>
    if 0 < value then
      some (natToString (if maxValue < value then maxValue else value).toNat)
    else none

/-- One iteration of `resolveOptions`' switch, applied to the already
lower-cased key/value pair. -/
def applyOption (accept : Option String) (o : Options) (p : String × String) :
    Options :=
  if p.1 = "format" then
    if p.2 = "auto" then
      match getFormatByAccept accept with
      | some f => { o with format := some f }
      | none => o
    else if p.2 ∈ SUPPORTED_FORMATS then { o with format := some p.2 }
    else o
  else if p.1 = "width" then
    match getOptionValue p.2 4000 with
    | some w => { o with width := some w }
    | none => o
  else if p.1 = "height" then
    match getOptionValue p.2 4000 with
    | some h => { o with height := some h }
    | none => o
  else if p.1 = "quality" then
    match getOptionValue p.2 100 with
    | some q => { o with quality := some q }
    | none => o
  else if p.1 = "bitrate" then
    if p.2 = "" then o else { o with bitrate := some p.2 }
  else o

/-- One iteration of `resolveOptions`' loop over the query keys: skip empty
keys and empty values, lower-case both, then dispatch on the key. -/
def resolveStep (accept : Option String) (o : Options) (p : String × String) :
    Options :=
  if p.1 = "" then o
  else if p.2 = "" then o
  else applyOption accept o (jsToLower p.1, jsToLower p.2)

/-- `resolveOptions`: fold the switch over the query parameters in order. -/
def resolveOptions (request : CFRequest) : Options :=
  request.querystring.foldl (resolveStep request.accept) {}

/-- `isEmpty(options)`: no key was ever assigned. -/
def Options.isEmptyO (o : Options) : Bool :=
  o.format.isNone && o.quality.isNone && o.width.isNone &&
    o.height.isNone && o.bitrate.isNone

/-- The directive pieces pushed onto `optionArray`, in the handler's fixed
order: format, quality, width, height, bitrate. -/
def optionArrayOf (o : Options) : List String :=
  (if jsTruthy o.format then ["format=" ++ o.format.getD ""] else []) ++
  (if jsTruthy o.quality then ["quality=" ++ o.quality.getD ""] else []) ++
  (if jsTruthy o.width then ["width=" ++ o.width.getD ""] else []) ++
  (if jsTruthy o.height then ["height=" ++ o.height.getD ""] else []) ++
  (if jsTruthy o.bitrate then ["bitrate=" ++ o.bitrate.getD ""] else [])

/-- `optionArray.join(',')`. -/
def serializeOptions (o : Options) : String :=
  jsJoin "," (optionArrayOf o)

/-- The normalizer `handler`: rewrite the URI with the canonical directive
suffix (or `/original`) and clear the query string. -/
def handler (request : CFRequest) : CFRequest :=
  let options := resolveOptions request
  let uri :=
    if !options.isEmptyO then request.uri ++ "/" ++ serializeOptions options
    else request.uri ++ "/original"
  { request with uri := uri, querystring := [] }

end Normalizer

/-! ## Transform Engine

Embedding of the Lambda function — `src/functions/url-rewrite/index.js`
(second document). The S3 client, sharp and ffmpeg are oracles supplied in
an `EngineEnv`; the handler additionally returns the trace of the external
operations it attempted, in order. -/

namespace Engine

/-- A media format registry entry (`ImageFormat`/`AudioFormat` values). -/
structure MediaFormatDesc where
  Name : String
  Codec : String := ""
  Format : String
  ContentType : String
  SupportQuality : Bool := false
  SupportBitrate : Bool := false
deriving DecidableEq

/-- The `ImageFormat` registry, in property order. -/
def ImageFormat : List MediaFormatDesc :=
  [{ Name := "jpg", Format := "jpeg", ContentType := "image/jpeg", SupportQuality := true },
   { Name := "jpeg", Format := "jpeg", ContentType := "image/jpeg", SupportQuality := true },
   { Name := "png", Format := "png", ContentType := "image/png", SupportQuality := false },
   { Name := "webp", Format := "webp", ContentType := "image/webp", SupportQuality := true },
   { Name := "gif", Format := "gif", ContentType := "image/gif", SupportQuality := false },
   { Name := "tif", Format := "tiff", ContentType := "image/tiff", SupportQuality := true },
   { Name := "tiff", Format := "tiff", ContentType := "image/tiff", SupportQuality := true },
   { Name := "avif", Format := "avif", ContentType := "image/avif", SupportQuality := true },
   { Name := "svg", Format := "svg", ContentType := "image/svg+xml", SupportQuality := false }]

/-- The `AudioFormat` registry, in property order. -/
def AudioFormat : List MediaFormatDesc :=
  [{ Name := "mp3", Codec := "libmp3lame", Format := "mp3", ContentType := "audio/mpeg", SupportBitrate := true },
   { Name := "aac", Codec := "aac", Format := "aac", ContentType := "audio/aac", SupportBitrate := true },
   { Name := "ac3", Codec := "ac3", Format := "ac3", ContentType := "audio/ac3", SupportBitrate := true },
   { Name := "flac", Codec := "flac", Format := "flac", ContentType := "audio/flac", SupportBitrate := false },
   { Name := "m4a", Codec := "alac", Format := "m4a", ContentType := "audio/mp4a-latm", SupportBitrate := false },
   { Name := "wav", Codec := "pcm_s16le", Format := "wav", ContentType := "audio/wav", SupportBitrate := false }]

/-- Assign `options[k] = v` on a JavaScript object modelled as an
association list: an existing key keeps its position, a new key is
appended. -/
def assocSet (l : List (String × Option String)) (k : String)
    (v : Option String) : List (String × Option String) :=
  match l with
  | [] => [(k, v)]
  | (k1, v1) :: rest =>
    if k1 = k then (k1, v) :: rest else (k1, v1) :: assocSet rest k v

/-- The engine's `resolveOptions`: split the directive string on `','`,
then each piece on `'='`; a piece without `'='` maps its key to
`undefined`. -/
def resolveOptionsE (optionString : String) : List (String × Option String) :=
  if optionString = "" then []
  else
    (jsSplit optionString ',').foldl
      (fun acc kv =>
        let parts := jsSplit kv '='
        assocSet acc (parts.headD "") (parts.get? 1))
      []

/-- Truthy lookup `options[k]`: `some v` exactly when the key is present
with a defined, non-empty value. -/
def getOpt (opts : List (String × Option String)) (k : String) :
    Option String :=
  match opts.find? (fun p => p.1 = k) with
  | some (_, some v) => if v = "" then none else some v
  | _ => none

/-- `resolveImageFormat`: scan the image registry for a matching `Name`. -/
def resolveImageFormat (format : Option String) : Option MediaFormatDesc :=
  match format with
  | none => none
  | some f => if f = "" then none else ImageFormat.find? (fun d => d.Name = f)

/-- `resolveAudioFormat`: scan the audio registry for a matching `Name`. -/
def resolveAudioFormat (format : Option String) : Option MediaFormatDesc :=
  match format with
  | none => none
  | some f => if f = "" then none else AudioFormat.find? (fun d => d.Name = f)

/-- `trimStart(str, p)`: remove `p` from the front of `str` when present. -/
def trimStart (str p : String) : String :=
  if str = "" ∨ p = "" then str
  else if jsStartsWith str p then String.mk (str.data.drop p.data.length)
  else str

/-- Node's `path.extname`: the final-dot suffix of the basename, empty when
there is no dot, the dot is the basename's first character, or the
basename is `".."`. -/
def extname (p : String) : String :=
  let base := (splitChars '/' p.data).getLastD []
  let rev := base.reverse
  let pre := rev.takeWhile (fun c => !(c = '.'))
  if pre.length = rev.length then ""
  else if pre.length + 1 = rev.length then ""
  else if base = ['.', '.'] then ""
  else String.mk ('.' :: pre.reverse)

/-- `computeBitrate`: the effective bitrate flag for ffmpeg, `none` meaning
no flag is set. -/
def computeBitrate (bitrate : Option String)
    (audioFormat : Option MediaFormatDesc) (inputExt : String) :
    Option String :=
  let defaultBitrate := "64k"
  match audioFormat with
  | some f =>
    if f.SupportBitrate then
      some (if jsTruthy bitrate then bitrate.getD "" else defaultBitrate)
    else none
  | none =>
    let ext := trimStart inputExt "."
    match resolveAudioFormat (some ext) with
    | some f =>
      if f.SupportBitrate then
        some (if jsTruthy bitrate then bitrate.getD "" else defaultBitrate)
      else none
    | none => none

/-- `isImage`: image content type and at least one image-relevant directive. -/
def isImage (contentType : Option String)
    (opts : List (String × Option String)) : Bool :=
  match contentType with
  | none => false
  | some ct =>
    if ct = "" then false
    else
      jsStartsWith (jsToLower ct) "image" &&
        (jsTruthy (getOpt opts "format") || jsTruthy (getOpt opts "quality") ||
         jsTruthy (getOpt opts "width") || jsTruthy (getOpt opts "height"))

/-- `isAudio`: audio content type and at least one audio-relevant directive. -/
def isAudio (contentType : Option String)
    (opts : List (String × Option String)) : Bool :=
  match contentType with
  | none => false
  | some ct =>
    if ct = "" then false
    else
      jsStartsWith (jsToLower ct) "audio" &&
        (jsTruthy (getOpt opts "format") || jsTruthy (getOpt opts "bitrate"))

/-- `isSupported`: the request needs an image or an audio transform. -/
def isSupported (contentType : Option String)
    (opts : List (String × Option String)) : Bool :=
  match contentType with
  | none => false
  | some _ => isImage contentType opts || isAudio contentType opts

/-- The origin object as downloaded from S3. -/
structure S3Object where
  body : List Nat
  contentType : Option String
  metadata : List (String × String)
deriving DecidableEq

/-- The sharp pipeline an image transform builds: `some none` in a resize
slot is JavaScript `NaN` (an unparseable directive passed through
`parseInt`); `toFormat` carries the target encoder format and the optional
quality argument. -/
structure SharpCall where
  resizeWidth : Option (Option Int) := none
  resizeHeight : Option (Option Int) := none
  rotate : Bool := false
  toFormat : Option (String × Option (Option Int)) := none
deriving DecidableEq

/-- The ffmpeg command an audio transform builds. -/
structure FfmpegCall where
  inputExt : String
  codec : Option String
  bitrate : Option String
  outputExt : String
deriving DecidableEq

/-- A transform routine's return value: output bytes and content type. -/
structure TransResult where
  buff : List Nat
  contentType : Option String
deriving DecidableEq

/-- The external operations the handler attempts, in order. -/
inductive Op where
  | getObject (key : String)
  | putObject (key : String) (body : List Nat) (contentType : Option String)
      (cacheControl : Option String) (metadata : List (String × String))
  | sharp (body : List Nat) (call : SharpCall)
  | ffmpeg (body : List Nat) (call : FfmpegCall)
deriving DecidableEq

/-- Deployment configuration plus oracles for the external collaborators:
S3 download, upload success, sharp metadata orientation, and the byte
outputs of sharp and ffmpeg. -/
structure EngineEnv where
  secretKey : String
  cacheBucketEnabled : Bool
  cacheTTL : Option String
  download : String → Except Unit S3Object
  uploadOk : Bool
  orientation : List Nat → Bool
  sharpRun : List Nat → SharpCall → Except Unit (List Nat)
  ffmpegRun : List Nat → FfmpegCall → Except Unit (List Nat)

/-- The part of the Lambda function URL event the handler reads. -/
structure HttpCtx where
  method : String
  path : String
deriving DecidableEq

/-- `event.requestContext`. -/
structure RequestContext where
  http : Option HttpCtx
deriving DecidableEq

/-- The Lambda event: the `x-origin-secret-header` header and the request
context. -/
structure LambdaEvent where
  secretHeader : Option String
  requestContext : Option RequestContext
deriving DecidableEq

/-- The Lambda proxy response. -/
structure LambdaResponse where
  statusCode : Nat
  headers : List (String × String) := []
  body : Option String := none
  isBase64Encoded : Bool := false
deriving DecidableEq

/-- `newError`: a 500 response with the stage message as body. -/
def newError (message : String) : LambdaResponse :=
  { statusCode := 500, body := some message }

/-- The secret check: `!secret || !(secret === SECRET_KEY)` fails. -/
def authOk (env : EngineEnv) (event : LambdaEvent) : Bool :=
  match event.secretHeader with
  | none => false
  | some s => !(s = "") && s = env.secretKey

/-- The method check: `requestContext.http.method === 'GET'` with the
intermediate objects present. -/
def getOk (event : LambdaEvent) : Bool :=
  match event.requestContext with
  | none => false
  | some rc =>
    match rc.http with
    | none => false
    | some http => http.method = "GET"

/-- `requestContext.http.path` (after `getOk` has been established). -/
def eventPath (event : LambdaEvent) : String :=
  match event.requestContext with
  | some rc =>
    match rc.http with
    | some http => http.path
    | none => ""
  | none => ""

/-- Split the request path as the handler does: `split('/')`, `pop()` the
directive string, `shift()` the leading empty segment, `join('/')` the
rest. -/
def splitRequestPath (path : String) : String × String :=
  let parts := jsSplit path '/'
  let optionString := parts.getLastD ""
  let rest := (parts.dropLast).drop 1
  (jsJoin "/" rest, optionString)

/-- The cache key: `originFilePath + '/' + optionString`. -/
def cacheKeyOfPath (path : String) : String :=
  (splitRequestPath path).1 ++ "/" ++ (splitRequestPath path).2

/-- Hexadecimal digit character (upper case, as JavaScript emits). -/
def hexDigitChar (n : Nat) : Char :=
  if n < 10 then Char.ofNat (48 + n) else Char.ofNat (55 + n)

/-- Percent-encoding of one byte. -/
def byteHex (b : Nat) : List Char :=
  ['%', hexDigitChar (b / 16), hexDigitChar (b % 16)]

/-- UTF-8 bytes of a character. -/
def utf8Bytes (c : Char) : List Nat :=
  let n := c.toNat
  if n < 0x80 then [n]
  else if n < 0x800 then [0xC0 + n / 0x40, 0x80 + n % 0x40]
  else if n < 0x10000 then
    [0xE0 + n / 0x1000, 0x80 + (n / 0x40) % 0x40, 0x80 + n % 0x40]
  else
    [0xF0 + n / 0x40000, 0x80 + (n / 0x1000) % 0x40,
     0x80 + (n / 0x40) % 0x40, 0x80 + n % 0x40]

/-- Characters `encodeURI` leaves unescaped. -/
def encodeURIKeep (c : Char) : Bool :=
  (65 ≤ c.toNat && c.toNat ≤ 90) || (97 ≤ c.toNat && c.toNat ≤ 122) ||
  (48 ≤ c.toNat && c.toNat ≤ 57) ||
  [';', ',', '/', '?', ':', '@', '&', '=', '+', '$', '-', '_', '.',
   '!', '~', '*', '\'', '(', ')', '#'].contains c

/-- JavaScript `encodeURI`. -/
def encodeURI (s : String) : String :=
  String.mk
    ((s.data.map (fun c =>
      if encodeURIKeep c then [c]
      else ((utf8Bytes c).map byteHex).flatten)).flatten)

/-- Characters `querystring.stringify` leaves unescaped
(the `encodeURIComponent` set). -/
def qsKeep (c : Char) : Bool :=
  (65 ≤ c.toNat && c.toNat ≤ 90) || (97 ≤ c.toNat && c.toNat ≤ 122) ||
  (48 ≤ c.toNat && c.toNat ≤ 57) ||
  ['-', '_', '.', '!', '~', '*', '\'', '(', ')'].contains c

/-- `querystring.escape`. -/
def qsEscape (s : String) : String :=
  String.mk
    ((s.data.map (fun c =>
      if qsKeep c then [c]
      else ((utf8Bytes c).map byteHex).flatten)).flatten)

/-- Node `querystring.stringify` on the options object: `undefined` values
render as an empty string. -/
def qsStringify (opts : List (String × Option String)) : String :=
  jsJoin "&" (opts.map (fun p => qsEscape p.1 ++ "=" ++ qsEscape (p.2.getD "")))

/-- Outcome of `transImage`: the sharp pipeline that was built and the
routine's result. -/
structure ImageOutcome where
  call : SharpCall
  result : Except Unit TransResult

/-- `transImage`: build the resize/rotate pipeline, then re-encode in the
resolved target format (with quality when supported and given) or, when no
image format resolves, in the source format with the origin content type. -/
def transImage (env : EngineEnv) (body : List Nat)
    (contentType : Option String) (opts : List (String × Option String)) :
    ImageOutcome :=
  let w := getOpt opts "width"
  let h := getOpt opts "height"
  let resizeW : Option (Option Int) :=
    match w with
    | some v => some (jsParseInt v)
    | none => none
  let resizeH : Option (Option Int) :=
    match h with
    | some v => some (jsParseInt v)
    | none => none
  let rot := env.orientation body
  match resolveImageFormat (getOpt opts "format") with
  | none =>
    let call : SharpCall :=
      { resizeWidth := resizeW, resizeHeight := resizeH, rotate := rot,
        toFormat := none }
    { call := call,
      result := (env.sharpRun body call).map
        (fun bytes => { buff := bytes, contentType := contentType }) }
  | some fmt =>
    let quality := getOpt opts "quality"
    if fmt.SupportQuality && jsTruthy quality then
      let call : SharpCall :=
        { resizeWidth := resizeW, resizeHeight := resizeH, rotate := rot,
          toFormat := some (fmt.Format, some (jsParseInt (quality.getD ""))) }
      { call := call,
        result := (env.sharpRun body call).map
          (fun bytes => { buff := bytes, contentType := some fmt.ContentType }) }
    else
      let call : SharpCall :=
        { resizeWidth := resizeW, resizeHeight := resizeH, rotate := rot,
          toFormat := some (fmt.Format, none) }
      { call := call,
        result := (env.sharpRun body call).map
          (fun bytes => { buff := bytes, contentType := some fmt.ContentType }) }

/-- Outcome of `transAudio`: the ffmpeg command that was built and the
routine's result. -/
structure AudioOutcome where
  call : FfmpegCall
  result : Except Unit TransResult

/-- `transAudio`: resolve the target audio format, derive the output
extension, compute the effective bitrate, and run ffmpeg. -/
def transAudio (env : EngineEnv) (body : List Nat)
    (contentType : Option String) (opts : List (String × Option String))
    (audioFileKey : String) : AudioOutcome :=
  let audioFormat := resolveAudioFormat (getOpt opts "format")
  let inputExt := extname audioFileKey
  let outputExt :=
    match audioFormat with
    | some f => "." ++ f.Format
    | none => inputExt
  let bitrate := computeBitrate (getOpt opts "bitrate") audioFormat inputExt
  let call : FfmpegCall :=
    { inputExt := inputExt, codec := audioFormat.map (fun f => f.Codec),
      bitrate := bitrate, outputExt := outputExt }
  { call := call,
    result := (env.ffmpegRun body call).map
      (fun bytes =>
        { buff := bytes,
          contentType :=
            match audioFormat with
            | some f => some f.ContentType
            | none => contentType }) }

/-- The engine `handler`: authenticate, split the path, download the
origin, either pass the original through or dispatch a transform, upload
the outcome under the cache key, and answer with a redirect (or a
stage-specific 500). Also returns the trace of attempted operations. -/
def handler (env : EngineEnv) (event : LambdaEvent) :
    LambdaResponse × List Op :=
  if !authOk env event then (newError "Request unauthorized", [])
  else if !getOk event then (newError "Only GET method is supported", [])
  else
    let requestPath := eventPath event
    let originFilePath := (splitRequestPath requestPath).1
    let optionString := (splitRequestPath requestPath).2
    let cacheKey := originFilePath ++ "/" ++ optionString
    match env.download originFilePath with
    | .error _ =>
      (newError "Could not download origin file from S3",
       [Op.getObject originFilePath])
    | .ok obj =>
      let options := resolveOptionsE optionString
      if optionString = "original" || !isSupported obj.contentType options then
        let uploadOps :=
          if env.cacheBucketEnabled then
            [Op.putObject cacheKey obj.body obj.contentType env.cacheTTL
              obj.metadata]
          else []
        if env.cacheBucketEnabled && !env.uploadOk then
          (newError "Could not upload origin file to S3",
           Op.getObject originFilePath :: uploadOps)
        else
          ({ statusCode := 302,
             headers := [("Location", "/" ++ encodeURI originFilePath),
                         ("Cache-Control", "no-cache")] },
           Op.getObject originFilePath :: uploadOps)
      else if isImage obj.contentType options then
        let out := transImage env obj.body obj.contentType options
        match out.result with
        | .error _ =>
          (newError "Transforming image failed",
           [Op.getObject originFilePath, Op.sharp obj.body out.call])
        | .ok tr =>
          let uploadOps :=
            if env.cacheBucketEnabled then
              [Op.putObject cacheKey tr.buff tr.contentType env.cacheTTL
                obj.metadata]
            else []
          let ops := Op.getObject originFilePath :: Op.sharp obj.body out.call ::
            uploadOps
          if env.cacheBucketEnabled && !env.uploadOk then
            (newError "Could not upload transformed file to S3", ops)
          else
            ({ statusCode := 302,
               headers :=
                 [("Location", "/" ++ encodeURI originFilePath ++ "?" ++
                    qsStringify options),
                  ("Cache-Control", "no-cache")] },
             ops)
      else
        let out := transAudio env obj.body obj.contentType options
          originFilePath
        match out.result with
        | .error _ =>
          (newError "Transforming audio failed",
           [Op.getObject originFilePath, Op.ffmpeg obj.body out.call])
        | .ok tr =>
          let uploadOps :=
            if env.cacheBucketEnabled then
              [Op.putObject cacheKey tr.buff tr.contentType env.cacheTTL
                obj.metadata]
            else []
          let ops := Op.getObject originFilePath :: Op.ffmpeg obj.body out.call ::
            uploadOps
          if env.cacheBucketEnabled && !env.uploadOk then
            (newError "Could not upload transformed file to S3", ops)
          else
            ({ statusCode := 302,
               headers :=
                 [("Location", "/" ++ encodeURI originFilePath ++ "?" ++
                    qsStringify options),
                  ("Cache-Control", "no-cache")] },
             ops)

end Engine

/-! ## Auxiliary definitions for the verification

Spec-side comparators, proof-oriented reformulations of the normalizer's
step function, well-formedness of normalized options, and concrete fixtures
used by witnesses. -/

namespace Engine

/-- The effective-bitrate rule as the specification phrases it: with a
resolved target format, the explicit directive when present else the fixed
default `64k`, provided the format supports bitrate (no flag otherwise);
with no target format, the same two rules applied to the format resolved
from the source extension. -/
def bitrateSpec (explicit : Option String)
    (target sourceFmt : Option MediaFormatDesc) : Option String :=
  match target with
  | some f => if f.SupportBitrate then some (explicit.getD "64k") else none
  | none =>
    match sourceFmt with
    | some f => if f.SupportBitrate then some (explicit.getD "64k") else none
    | none => none

end Engine

namespace Normalizer

/-- One optional query pair. -/
def optPair (key : String) : Option String → List (String × String)
  | some v => [(key, v)]
  | none => []

/-- The recognized directives of a normalized request, rendered back as
query parameters in canonical order. -/
def optionsToPairs (o : Options) : List (String × String) :=
  optPair "format" o.format ++ optPair "quality" o.quality ++
    optPair "width" o.width ++ optPair "height" o.height ++
    optPair "bitrate" o.bitrate

/-- The five directive slots of the options object. -/
inductive DirectiveField where
  | fmt
  | qual
  | wid
  | hei
  | bit
deriving DecidableEq

/-- Assign one directive slot. -/
def setField (o : Options) : DirectiveField → String → Options
  | .fmt, v => { o with format := some v }
  | .qual, v => { o with quality := some v }
  | .wid, v => { o with width := some v }
  | .hei, v => { o with height := some v }
  | .bit, v => { o with bitrate := some v }

/-- Which slot (and value) one already lower-cased query pair assigns, if
any: a functional summary of `resolveOptions`' switch. -/
def fieldOf (accept : Option String) (p : String × String) :
    Option (DirectiveField × String) :=
  if p.1 = "" then none
  else if p.2 = "" then none
  else if p.1 = "format" then
    if p.2 = "auto" then
      (getFormatByAccept accept).map (fun f => (DirectiveField.fmt, f))
    else if p.2 ∈ SUPPORTED_FORMATS then some (DirectiveField.fmt, p.2)
    else none
  else if p.1 = "width" then
    (getOptionValue p.2 4000).map (fun w => (DirectiveField.wid, w))
  else if p.1 = "height" then
    (getOptionValue p.2 4000).map (fun h => (DirectiveField.hei, h))
  else if p.1 = "quality" then
    (getOptionValue p.2 100).map (fun q => (DirectiveField.qual, q))
  else if p.1 = "bitrate" then
    if p.2 = "" then none else some (DirectiveField.bit, p.2)
  else none

/-- `resolveStep` acting on an already lower-cased pair. -/
def stepLow (accept : Option String) (o : Options) (p : String × String) :
    Options :=
  if p.1 = "" then o
  else if p.2 = "" then o
  else applyOption accept o p

/-- The query key that assigns each directive slot. -/
def keyOfField : DirectiveField → String
  | .fmt => "format"
  | .qual => "quality"
  | .wid => "width"
  | .hei => "height"
  | .bit => "bitrate"

/-- A value `getOptionValue` can produce under maximum `m`. -/
def WFValue (m : Nat) (s : String) : Prop :=
  ∃ n : Nat, 1 ≤ n ∧ n ≤ m ∧ s = natToString n

/-- Invariant of every options object `resolveOptions` produces: formats
come from the registry, numeric values are rendered clamped positive
integers, the bitrate is a non-empty lower-cased string. -/
structure WFOptions (o : Options) : Prop where
  format : ∀ f, o.format = some f → f ∈ SUPPORTED_FORMATS
  quality : ∀ q, o.quality = some q → WFValue 100 q
  width : ∀ w, o.width = some w → WFValue 4000 w
  height : ∀ h, o.height = some h → WFValue 4000 h
  bitrate : ∀ b, o.bitrate = some b → b ≠ "" ∧ jsToLower b = b

end Normalizer

/-- Concrete origin object used by witnesses. -/
def obj0 : Engine.S3Object :=
  { body := [1, 2, 3], contentType := some "image/jpeg",
    metadata := [("k", "v")] }

/-- Concrete audio origin object used by witnesses. -/
def objAudio : Engine.S3Object :=
  { body := [4, 5], contentType := some "audio/flac", metadata := [] }

/-- Concrete engine environment used by witnesses: downloads succeed for
`a.jpg` and `song.flac`, sharp and ffmpeg succeed, uploads succeed. -/
def env0 : Engine.EngineEnv :=
  { secretKey := "s", cacheBucketEnabled := true,
    cacheTTL := some "max-age=31622400",
    download := fun k =>
      if k = "a.jpg" then .ok obj0
      else if k = "song.flac" then .ok objAudio
      else .error (),
    uploadOk := true, orientation := fun _ => false,
    sharpRun := fun _ _ => .ok [7],
    ffmpegRun := fun _ _ => .ok [9] }

/-- A variant of `env0` whose sharp oracle fails, as the real library does
when handed a `NaN` resize dimension. -/
def envSharpFail : Engine.EngineEnv :=
  { env0 with sharpRun := fun _ _ => .error () }

/-- A well-formed GET event for the given path, carrying `env0`'s secret. -/
def evGet (p : String) : Engine.LambdaEvent :=
  { secretHeader := some "s",
    requestContext := some { http := some { method := "GET", path := p } } }

/-! ## Facts about the string primitives -/

theorem char_toNat_ofNat (n : Nat) (h : n.isValidChar) : (Char.ofNat n).toNat = n := by
  simp only [Char.ofNat, dif_pos h, Char.ofNatAux, Char.toNat]
  rfl

theorem jsCharLower_idem (c : Char) : jsCharLower (jsCharLower c) = jsCharLower c := by
  by_cases h : 65 ≤ c.toNat ∧ c.toNat ≤ 90
  · have hv : (c.toNat + 32).isValidChar := Or.inl (by omega)
    have h1 : jsCharLower c = Char.ofNat (c.toNat + 32) := by
      unfold jsCharLower; rw [if_pos h]
    rw [h1]
    unfold jsCharLower
    rw [char_toNat_ofNat _ hv, if_neg (by omega)]
  · have h1 : jsCharLower c = c := by unfold jsCharLower; rw [if_neg h]
    rw [h1, h1]

theorem jsCharLower_of_lt (c : Char) (h : c.toNat < 65) : jsCharLower c = c := by
  unfold jsCharLower
  rw [if_neg (by omega)]

theorem jsToLower_idem (s : String) : jsToLower (jsToLower s) = jsToLower s := by
  unfold jsToLower
  simp only [List.map_map]
  congr 1
  apply List.map_congr_left
  intro c _
  exact jsCharLower_idem c

theorem jsToLower_eq_empty (s : String) : jsToLower s = "" ↔ s = "" := by
  constructor
  · intro h
    have hd : (jsToLower s).data = [] := by rw [h]
    unfold jsToLower at hd
    simp at hd
    cases s
    simp at hd
    simp [hd]
  · intro h; rw [h]; rfl

theorem digitVal_bounds (c : Char) (h : (digitVal c).isSome) :
    48 ≤ c.toNat ∧ c.toNat ≤ 57 := by
  unfold digitVal at h
  by_cases hb : 48 ≤ c.toNat ∧ c.toNat ≤ 57
  · exact hb
  · rw [if_neg hb] at h; simp at h

theorem digitVal_natDigitChar (n : Nat) (h : n < 10) :
    digitVal (natDigitChar n) = some n := by
  have hv : (48 + n).isValidChar := Or.inl (by omega)
  unfold natDigitChar digitVal
  rw [char_toNat_ofNat _ hv, if_pos (by omega)]
  congr 1
  omega

theorem jsCharLower_digit (c : Char) (h : (digitVal c).isSome) :
    jsCharLower c = c := by
  have := digitVal_bounds c h
  exact jsCharLower_of_lt c (by omega)

theorem jsWhitespaceChar_digit (c : Char) (h : (digitVal c).isSome) :
    jsWhitespaceChar c = false := by
  have hb := digitVal_bounds c h
  unfold jsWhitespaceChar
  have hs : c ≠ ' ' := by intro he; rw [he] at hb; simp at hb
  have ht : c ≠ '\t' := by intro he; rw [he] at hb; simp at hb
  have hn : c ≠ '\n' := by intro he; rw [he] at hb; simp at hb
  have hv : c ≠ '\x0b' := by intro he; rw [he] at hb; simp at hb
  have hf : c ≠ '\x0c' := by intro he; rw [he] at hb; simp at hb
  have hr : c ≠ '\r' := by intro he; rw [he] at hb; simp at hb
  simp [hs, ht, hn, hv, hf, hr]

theorem natDigits_mem_digit (fuel n : Nat) :
    ∀ c ∈ natDigits fuel n, (digitVal c).isSome := by
  induction fuel generalizing n with
  | zero => intro c hc; simp [natDigits] at hc
  | succ fuel ih =>
    intro c hc
    unfold natDigits at hc
    by_cases h : n < 10
    · rw [if_pos h] at hc
      simp at hc
      rw [hc, digitVal_natDigitChar n h]
      rfl
    · rw [if_neg h] at hc
      rcases List.mem_append.mp hc with h1 | h2
      · exact ih (n / 10) c h1
      · simp at h2
        rw [h2, digitVal_natDigitChar _ (Nat.mod_lt n (by omega))]
        rfl

theorem natDigits_ne_nil (fuel n : Nat) : natDigits (fuel + 1) n ≠ [] := by
  unfold natDigits
  by_cases h : n < 10
  · rw [if_pos h]; simp
  · rw [if_neg h]; simp

theorem natDigits_foldl (fuel : Nat) :
    ∀ n a, n < 10 ^ fuel →
      (natDigits fuel n).foldl (fun a c => a * 10 + ((digitVal c).getD 0)) a =
        a * 10 ^ (natDigits fuel n).length + n := by
  induction fuel with
  | zero =>
    intro n a hn
    interval_cases n
    simp [natDigits]
  | succ fuel ih =>
    intro n a hn
    unfold natDigits
    by_cases h : n < 10
    · rw [if_pos h]
      simp [digitVal_natDigitChar n h]
    · rw [if_neg h]
      rw [List.foldl_append]
      have hdiv : n / 10 < 10 ^ fuel := by
        have h10 : (10 : Nat) ^ (fuel + 1) = 10 * 10 ^ fuel := by ring
        rw [h10] at hn
        omega
      rw [ih (n / 10) a hdiv]
      simp only [List.foldl_cons, List.foldl_nil, List.length_append,
        List.length_cons, List.length_nil, Nat.zero_add]
      rw [digitVal_natDigitChar _ (Nat.mod_lt n (by omega))]
      simp only [Option.getD_some]
      have key : n / 10 * 10 + n % 10 = n := by omega
      calc (a * 10 ^ (natDigits fuel (n / 10)).length + n / 10) * 10 + n % 10
        = a * (10 ^ (natDigits fuel (n / 10)).length * 10) +
            (n / 10 * 10 + n % 10) := by ring
      _ = a * 10 ^ ((natDigits fuel (n / 10)).length + 1) + n := by
            rw [key, pow_succ]

theorem parseDigits_natDigits (fuel n : Nat) (hn : n < 10 ^ fuel) (hf : 0 < fuel) :
    parseDigits (natDigits fuel n) = some n := by
  unfold parseDigits
  have hall := natDigits_mem_digit fuel n
  have htake : (natDigits fuel n).takeWhile (fun c => (digitVal c).isSome) =
      natDigits fuel n := List.takeWhile_eq_self_iff.mpr (by
    intro c hc; exact hall c hc)
  rw [htake]
  obtain ⟨fuel, rfl⟩ : ∃ k, fuel = k + 1 := ⟨fuel - 1, by omega⟩
  have hne := natDigits_ne_nil fuel n
  rw [if_neg (by simpa using hne)]
  rw [natDigits_foldl (fuel + 1) n 0 hn]
  simp

theorem nat_lt_ten_pow (n : Nat) : n < 10 ^ (n + 1) := by
  calc n < 2 ^ n := Nat.lt_two_pow n
  _ ≤ 2 ^ (n + 1) := Nat.pow_le_pow_right (by omega) (by omega)
  _ ≤ 10 ^ (n + 1) := Nat.pow_le_pow_left (by omega) _

theorem parseDigits_natToString (n : Nat) :
    parseDigits (natToString n).data = some n :=
  parseDigits_natDigits (n + 1) n (nat_lt_ten_pow n) (by omega)

theorem natToString_ne_empty (n : Nat) : natToString n ≠ "" := by
  unfold natToString
  intro h
  have : (String.mk (natDigits (n + 1) n)).data = ("" : String).data := by rw [h]
  simp at this
  exact natDigits_ne_nil n n this

theorem jsToLower_natToString (n : Nat) :
    jsToLower (natToString n) = natToString n := by
  unfold jsToLower natToString
  congr 1
  apply List.map_congr_left ?_ |>.trans (List.map_id _)
  intro c hc
  exact jsCharLower_digit c (natDigits_mem_digit _ n c hc)

theorem parseUnsigned_of_digits (cs : List Char)
    (hall : ∀ c ∈ cs, (digitVal c).isSome) :
    parseUnsigned cs = parseDigits cs := by
  cases cs with
  | nil => rfl
  | cons c1 cs1 =>
    cases cs1 with
    | nil => rfl
    | cons c2 rest =>
      have hc2 : (digitVal c2).isSome := hall c2 (by simp)
      have hb2 := digitVal_bounds c2 hc2
      have hx : ¬(c1 = '0' ∧ (c2 = 'x' ∨ c2 = 'X')) := by
        rintro ⟨-, he | he⟩ <;> (rw [he] at hb2; simp at hb2)
      show (if c1 = '0' ∧ (c2 = 'x' ∨ c2 = 'X') then parseHexDigits rest
            else parseDigits (c1 :: c2 :: rest)) = parseDigits (c1 :: c2 :: rest)
      rw [if_neg hx]

theorem jsParseInt_natToString (n : Nat) :
    jsParseInt (natToString n) = some (n : Int) := by
  unfold jsParseInt
  have hall := natDigits_mem_digit (n + 1) n
  have hdata : (natToString n).data = natDigits (n + 1) n := rfl
  rw [hdata]
  cases hd : natDigits (n + 1) n with
  | nil => exact absurd hd (natDigits_ne_nil n n)
  | cons c cs =>
    have hc : (digitVal c).isSome := hall c (by rw [hd]; simp)
    have hb := digitVal_bounds c hc
    have hdrop : List.dropWhile jsWhitespaceChar (c :: cs) = c :: cs := by
      rw [List.dropWhile_cons, jsWhitespaceChar_digit c hc]
      simp
    simp only [hdrop]
    have hpu : parseUnsigned (c :: cs) = some n := by
      rw [parseUnsigned_of_digits _ (fun x hx => hall x (hd ▸ hx)), ← hd]
      exact parseDigits_natDigits (n + 1) n (nat_lt_ten_pow n) (by omega)
    have hneg : c ≠ '-' := by intro he; rw [he] at hb; simp at hb
    have hpos : c ≠ '+' := by intro he; rw [he] at hb; simp at hb
    split
    · rename_i rest heq
      injection heq with h1 _
      exact absurd h1 hneg
    · rename_i rest heq
      injection heq with h1 _
      exact absurd h1 hpos
    · rw [hpu]
      rfl


/-! ## Claims -/

/-- Claim C3: for every incoming event, an absent or wrong
`x-origin-secret-header` makes the Transform Engine answer
500 `"Request unauthorized"` with an empty operation trace (no storage
read or write), and a correct secret with a non-GET method (or missing
request context) makes it answer 500 `"Only GET method is supported"`,
again with an empty trace; both rejections precede any download or
upload. -/
theorem mediax_c3 (env : Engine.EngineEnv) (event : Engine.LambdaEvent) :
    (Engine.authOk env event = false →
      Engine.handler env event =
        (Engine.newError "Request unauthorized", [])) ∧
    (Engine.authOk env event = true → Engine.getOk event = false →
      Engine.handler env event =
        (Engine.newError "Only GET method is supported", [])) := by
  constructor
  · intro h
    unfold Engine.handler
    rw [h]
    rfl
  · intro h1 h2
    unfold Engine.handler
    rw [h1, h2]
    rfl

/-- Witness for C3 at two concrete events. -/
theorem mediax_c3_witness :
    Engine.handler env0 { secretHeader := some "bad", requestContext := none } =
      (Engine.newError "Request unauthorized", []) ∧
    Engine.handler env0
        { secretHeader := some "s",
          requestContext :=
            some { http := some { method := "POST", path := "/x" } } } =
      (Engine.newError "Only GET method is supported", []) :=
  ⟨(mediax_c3 env0 _).1 (by decide), (mediax_c3 env0 _).2 (by decide) (by decide)⟩

/-- Claim C6: the bitrate flag `transAudio` hands to ffmpeg is
`computeBitrate` of the explicit directive, the resolved target format and
the source extension, and `computeBitrate` implements exactly the
specification's rule: target resolved and supporting bitrate → explicit
value or the fixed default `64k`; target resolved but not supporting
bitrate (e.g. FLAC) → no flag at all; no target resolved → the same two
rules on the format looked up from the source extension. -/
theorem mediax_c6 (env : Engine.EngineEnv) (body : List Nat)
    (ct : Option String) (opts : List (String × Option String))
    (key : String) (b : Option String)
    (fa : Option Engine.MediaFormatDesc) (ext : String)
    (hb : b ≠ some "") :
    (Engine.transAudio env body ct opts key).call.bitrate =
      Engine.computeBitrate (Engine.getOpt opts "bitrate")
        (Engine.resolveAudioFormat (Engine.getOpt opts "format"))
        (Engine.extname key) ∧
    Engine.computeBitrate b fa ext =
      Engine.bitrateSpec b fa
        (Engine.resolveAudioFormat (some (Engine.trimStart ext "."))) := by
  constructor
  · rfl
  · have hbt : (if jsTruthy b then b.getD "" else "64k") = b.getD "64k" := by
      cases b with
      | none => rfl
      | some s =>
        have hs : s ≠ "" := fun h => hb (by rw [h])
        simp [jsTruthy, hs]
    unfold Engine.computeBitrate Engine.bitrateSpec
    cases fa with
    | some f => simp [hbt]
    | none =>
      cases h : Engine.resolveAudioFormat (some (Engine.trimStart ext ".")) with
      | some f => simp [h, hbt]
      | none => simp [h]

/-- Witness for C6: FLAC target with an explicit bitrate produces no flag;
MP3 target with no explicit bitrate defaults to `64k`. -/
theorem mediax_c6_witness :
    Engine.computeBitrate (some "128k")
        (Engine.resolveAudioFormat (some "flac")) ".flac" =
      Engine.bitrateSpec (some "128k")
        (Engine.resolveAudioFormat (some "flac"))
        (Engine.resolveAudioFormat (some (Engine.trimStart ".flac" "."))) ∧
    Engine.computeBitrate (some "128k")
        (Engine.resolveAudioFormat (some "flac")) ".flac" = none ∧
    Engine.computeBitrate none
        (Engine.resolveAudioFormat (some "mp3")) ".flac" = some "64k" :=
  ⟨(mediax_c6 env0 [] none [] "" (some "128k")
      (Engine.resolveAudioFormat (some "flac")) ".flac" (by decide)).2,
   by decide, by decide⟩

/-- Claim C9: when the format directive is absent or does not resolve in
the image registry, `transImage` builds a sharp pipeline with no
`toFormat` step (re-encoding in the source format after any
resize/rotation) and, on success, returns the origin content type — never
a substituted default such as JPEG. -/
theorem mediax_c9 (env : Engine.EngineEnv) (body : List Nat)
    (ct : Option String) (opts : List (String × Option String))
    (h : Engine.resolveImageFormat (Engine.getOpt opts "format") = none) :
    (Engine.transImage env body ct opts).call.toFormat = none ∧
    ∀ r, (Engine.transImage env body ct opts).result = Except.ok r →
      r.contentType = ct := by
  unfold Engine.transImage
  simp only [h]
  constructor
  · trivial
  · intro r hr
    cases hs : env.sharpRun body
        { resizeWidth :=
            match Engine.getOpt opts "width" with
            | some v => some (jsParseInt v)
            | none => none,
          resizeHeight :=
            match Engine.getOpt opts "height" with
            | some v => some (jsParseInt v)
            | none => none,
          rotate := env.orientation body, toFormat := none } with
    | error e => rw [hs] at hr; simp [Except.map] at hr
    | ok bytes =>
      rw [hs] at hr
      simp [Except.map] at hr
      rw [← hr]

/-- Witness for C9: an unresolvable (here: absent) format keeps the
origin content type `image/png`. -/
theorem mediax_c9_witness :
    (Engine.transImage env0 [1] (some "image/png")
        [("width", some "100")]).call.toFormat = none ∧
    (Engine.transImage env0 [1] (some "image/png")
        [("width", some "100")]).result =
      Except.ok { buff := [7], contentType := some "image/png" } :=
  ⟨(mediax_c9 env0 [1] (some "image/png") [("width", some "100")]
      (by decide)).1,
   by rfl⟩

/-! Split/join round-trip facts used for claim C10. -/

theorem splitChars_ne_nil (sep : Char) (cs : List Char) :
    splitChars sep cs ≠ [] := by
  cases cs with
  | nil => simp [splitChars]
  | cons c cs =>
    unfold splitChars
    by_cases h : c = sep
    · rw [if_pos h]
      simp
    · rw [if_neg h]
      cases hs : splitChars sep cs <;> simp

theorem joinChars_splitChars (sep : Char) (cs : List Char) :
    joinChars sep (splitChars sep cs) = cs := by
  induction cs with
  | nil => rfl
  | cons c cs ih =>
    unfold splitChars
    by_cases h : c = sep
    · rw [if_pos h]
      cases hs : splitChars sep cs with
      | nil => exact absurd hs (splitChars_ne_nil sep cs)
      | cons x t =>
        show ([] : List Char) ++ sep :: joinChars sep (x :: t) = c :: cs
        rw [← hs, ih, h]
        rfl
    · rw [if_neg h]
      cases hs : splitChars sep cs with
      | nil => exact absurd hs (splitChars_ne_nil sep cs)
      | cons x t =>
        cases t with
        | nil =>
          show c :: x = c :: cs
          rw [hs] at ih
          show c :: joinChars sep [x] = c :: cs
          rw [ih]
        | cons y t2 =>
          show c :: (x ++ sep :: joinChars sep (y :: t2)) = c :: cs
          rw [hs] at ih
          show c :: joinChars sep (x :: y :: t2) = c :: cs
          rw [ih]

theorem splitChars_length (sep : Char) (cs : List Char) :
    (splitChars sep cs).length = cs.count sep + 1 := by
  induction cs with
  | nil => rfl
  | cons c cs ih =>
    unfold splitChars
    by_cases h : c = sep
    · rw [if_pos h]
      simp [List.count_cons, h, ih]
    · rw [if_neg h]
      cases hs : splitChars sep cs with
      | nil => exact absurd hs (splitChars_ne_nil sep cs)
      | cons x t =>
        rw [hs] at ih
        simp only [List.length_cons, List.count_cons] at ih ⊢
        simp [h]
        omega

theorem mk_append (a b : List Char) :
    String.mk a ++ String.mk b = String.mk (a ++ b) := rfl

theorem jsJoin_map_mk (sep : Char) (ls : List (List Char)) :
    jsJoin (String.mk [sep]) (ls.map String.mk) = String.mk (joinChars sep ls) := by
  induction ls with
  | nil => rfl
  | cons x xs ih =>
    cases xs with
    | nil => rfl
    | cons y t =>
      show String.mk x ++ String.mk [sep] ++
          jsJoin (String.mk [sep]) ((y :: t).map String.mk) =
        String.mk (x ++ sep :: joinChars sep (y :: t))
      rw [ih, mk_append, mk_append]
      congr 1
      simp

theorem dropLast_append_getLastD (l : List (List Char)) (d : List Char)
    (h : l ≠ []) : l.dropLast ++ [l.getLastD d] = l := by
  induction l generalizing d with
  | nil => contradiction
  | cons a t ih =>
    cases t with
    | nil => rfl
    | cons b t2 =>
      show a :: ((b :: t2).dropLast ++ [(b :: t2).getLastD a]) = a :: b :: t2
      rw [ih a (by simp)]

theorem joinChars_append_last (sep : Char) (l : List (List Char))
    (x : List Char) (h : l ≠ []) :
    joinChars sep l ++ sep :: x = joinChars sep (l ++ [x]) := by
  induction l with
  | nil => contradiction
  | cons a t ih =>
    cases t with
    | nil => rfl
    | cons b t2 =>
      show (a ++ sep :: joinChars sep (b :: t2)) ++ sep :: x =
        a ++ sep :: joinChars sep ((b :: t2) ++ [x])
      rw [← ih (by simp)]
      simp

/-- Claim C10: for every request path beginning with `'/'` and containing
at least one further `'/'`, the cache key the Transform Engine computes —
the intermediate segments rejoined with `'/'` plus `'/'` plus the final
segment — equals the request path with its single leading `'/'` removed,
so splitting the canonical path and rejoining it is lossless and the
persisted key is exactly the path the CDN re-fetches from storage. -/
theorem mediax_c10 (cs : List Char) (h : 1 ≤ cs.count '/') :
    Engine.cacheKeyOfPath (String.mk ('/' :: cs)) = String.mk cs := by
  have hsplit : splitChars '/' ('/' :: cs) = [] :: splitChars '/' cs := by
    simp [splitChars]
  have hS := splitChars_ne_nil '/' cs
  have hlen : 2 ≤ (splitChars '/' cs).length := by
    rw [splitChars_length]
    omega
  have hdropne : (splitChars '/' cs).dropLast ≠ [] := by
    intro hd
    have := List.length_dropLast (splitChars '/' cs)
    rw [hd] at this
    simp at this
    omega
  unfold Engine.cacheKeyOfPath Engine.splitRequestPath jsSplit
  rw [hsplit]
  simp only [List.map_cons]
  have hlast : ((String.mk [] : String) :: (splitChars '/' cs).map String.mk).getLastD "" =
      String.mk ((splitChars '/' cs).getLastD []) := by
    rw [List.getLastD_cons]
    exact List.getLastD_map String.mk _ []
  have hdl : ((String.mk [] : String) :: (splitChars '/' cs).map String.mk).dropLast.drop 1 =
      ((splitChars '/' cs).dropLast).map String.mk := by
    cases hm : (splitChars '/' cs).map String.mk with
    | nil => exact absurd (List.map_eq_nil_iff.mp hm) hS
    | cons s t =>
      show (String.mk [] :: (s :: t).dropLast).drop 1 = _
      simp only [List.drop_succ_cons, List.drop_zero]
      rw [← hm, ← List.map_dropLast]
  rw [hlast, hdl]
  have hjoin : ("/" : String) = String.mk ['/'] := rfl
  rw [hjoin, jsJoin_map_mk, mk_append, mk_append]
  congr 1
  have : joinChars '/' ((splitChars '/' cs).dropLast) ++ ['/'] ++
      (splitChars '/' cs).getLastD [] =
      joinChars '/' ((splitChars '/' cs).dropLast) ++
        '/' :: (splitChars '/' cs).getLastD [] := by simp
  rw [this, joinChars_append_last '/' _ _ hdropne,
    dropLast_append_getLastD _ _ hS, joinChars_splitChars]

/-- Witness for C10 at a concrete canonical path. -/
theorem mediax_c10_witness :
    1 ≤ ("images/rio/1.jpeg/original".data.count '/') ∧
    Engine.cacheKeyOfPath (String.mk ('/' :: "images/rio/1.jpeg/original".data)) =
      String.mk "images/rio/1.jpeg/original".data :=
  ⟨by decide, mediax_c10 _ (by decide)⟩

/-- Claim C4: a width/height/quality value is dropped exactly when it does
not `parseInt` to a positive integer (zero and negatives dropped, never
clamped up); otherwise the parsed integer is kept, clamped to the maximum
(4000 for width and height, 100 for quality) — an over-maximum value is
never rejected, only reduced to the maximum. -/
theorem mediax_c4 (v : String) (m : Int) :
    (Normalizer.getOptionValue v m = none ↔
      ∀ n : Int, jsParseInt v = some n → n ≤ 0) ∧
    (∀ n : Int, jsParseInt v = some n → 0 < n →
      Normalizer.getOptionValue v m =
        some (natToString (if m < n then m else n).toNat)) ∧
    (∀ n : Int, jsParseInt v = some n → 0 < n → m < n →
      Normalizer.getOptionValue v m = some (natToString m.toNat)) ∧
    (Normalizer.resolveOptions
      { uri := "", querystring := [("width", v)], accept := none }).width =
      Normalizer.getOptionValue (jsToLower v) 4000 ∧
    (Normalizer.resolveOptions
      { uri := "", querystring := [("height", v)], accept := none }).height =
      Normalizer.getOptionValue (jsToLower v) 4000 ∧
    (Normalizer.resolveOptions
      { uri := "", querystring := [("quality", v)], accept := none }).quality =
      Normalizer.getOptionValue (jsToLower v) 100 := by
  have hsome : ∀ (value mv : Int), jsParseInt v = some value →
      Normalizer.getOptionValue v mv =
        if 0 < value then
          some (natToString (if mv < value then mv else value).toNat)
        else none := by
    intro value mv h
    unfold Normalizer.getOptionValue
    rw [h]
  refine ⟨?_, ?_, ?_, ?_, ?_, ?_⟩
  · cases hp : jsParseInt v with
    | none =>
      unfold Normalizer.getOptionValue
      rw [hp]
      simp
    | some value =>
      rw [hsome value m hp]
      by_cases hpos : 0 < value
      · rw [if_pos hpos]
        simp only [reduceCtorEq, false_iff]
        intro hall
        have := hall value rfl
        omega
      · rw [if_neg hpos]
        simp only [true_iff]
        intro n hn
        injection hn with hn
        omega
  · intro n hn hpos
    rw [hsome n m hn, if_pos hpos]
  · intro n hn hpos hlt
    rw [hsome n m hn, if_pos hpos, if_pos hlt]
  · by_cases hv : v = ""
    · subst hv
      decide
    · unfold Normalizer.resolveOptions
      simp only [List.foldl_cons, List.foldl_nil]
      unfold Normalizer.resolveStep
      rw [if_neg (by simp), if_neg hv]
      unfold Normalizer.applyOption
      have hk : jsToLower "width" = "width" := by decide
      rw [hk]
      simp only [reduceIte]
      cases hg : Normalizer.getOptionValue (jsToLower v) 4000 <;> simp
  · by_cases hv : v = ""
    · subst hv
      decide
    · unfold Normalizer.resolveOptions
      simp only [List.foldl_cons, List.foldl_nil]
      unfold Normalizer.resolveStep
      rw [if_neg (by simp), if_neg hv]
      unfold Normalizer.applyOption
      have hk : jsToLower "height" = "height" := by decide
      rw [hk]
      simp only [reduceIte]
      cases hg : Normalizer.getOptionValue (jsToLower v) 4000 <;> simp
  · by_cases hv : v = ""
    · subst hv
      decide
    · unfold Normalizer.resolveOptions
      simp only [List.foldl_cons, List.foldl_nil]
      unfold Normalizer.resolveStep
      rw [if_neg (by simp), if_neg hv]
      unfold Normalizer.applyOption
      have hk : jsToLower "quality" = "quality" := by decide
      rw [hk]
      simp only [reduceIte]
      cases hg : Normalizer.getOptionValue (jsToLower v) 100 <;> simp

/-- Witness for C4: `99999` clamps to `4000`, `0` is dropped, `500`
clamps to the quality maximum `100`. -/
theorem mediax_c4_witness :
    Normalizer.getOptionValue "99999" 4000 = some "4000" ∧
    Normalizer.getOptionValue "0" 4000 = none ∧
    Normalizer.getOptionValue "500" 100 = some "100" := by
  refine ⟨?_, ?_, ?_⟩
  · rw [(mediax_c4 "99999" 4000).2.1 99999 (by decide) (by decide)]
    decide
  · exact (mediax_c4 "0" 4000).1.mpr (fun n hn => by
      rw [show jsParseInt "0" = some 0 from by decide] at hn
      injection hn with hn
      omega)
  · rw [(mediax_c4 "500" 100).2.2.1 500 (by decide) (by decide) (by decide)]
    decide

/-- Claim C5: `format=auto` resolves to the first supported format name
occurring as a substring of the lower-cased Accept header; when the header
is missing, empty, or matches nothing, the format key is omitted without
error and the remaining directives still apply. In particular
`Accept: image/webp,image/*` resolves to `webp`. -/
theorem mediax_c5 :
    (∀ (uri : String) (rest : List (String × String)) (accept : Option String),
      Normalizer.getFormatByAccept accept = none →
      Normalizer.resolveOptions
          { uri := uri, querystring := ("format", "auto") :: rest,
            accept := accept } =
        Normalizer.resolveOptions
          { uri := uri, querystring := rest, accept := accept }) ∧
    (∀ a f, Normalizer.getFormatByAccept (some a) = some f →
      f ∈ Normalizer.SUPPORTED_FORMATS ∧ jsIncludes (jsToLower a) f = true) ∧
    Normalizer.getFormatByAccept (some "image/webp,image/*") = some "webp" ∧
    Normalizer.handler
        { uri := "/a.jpg", querystring := [("format", "auto"), ("width", "100")],
          accept := none } =
      { uri := "/a.jpg/width=100", querystring := [], accept := none } := by
  refine ⟨?_, ?_, by decide, by decide⟩
  · intro uri rest accept h
    unfold Normalizer.resolveOptions
    simp only [List.foldl_cons]
    congr 1
    unfold Normalizer.resolveStep
    rw [if_neg (by simp), if_neg (by simp)]
    unfold Normalizer.applyOption
    have hk : jsToLower "format" = "format" := by decide
    have hv : jsToLower "auto" = "auto" := by decide
    rw [hk, hv]
    simp [h]
  · intro a f h
    have heq : Normalizer.getFormatByAccept (some a) =
        if a = "" then none
        else Normalizer.SUPPORTED_FORMATS.find?
          (fun f => jsIncludes (jsToLower a) f) := rfl
    rw [heq] at h
    by_cases ha : a = ""
    · rw [if_pos ha] at h
      exact absurd h (by simp)
    · rw [if_neg ha] at h
      exact ⟨List.mem_of_find?_eq_some h, List.find?_some h⟩

/-- Witness for C5: with no Accept header, `format=auto` contributes
nothing and the width directive still applies. -/
theorem mediax_c5_witness :
    Normalizer.resolveOptions
        { uri := "", querystring := [("format", "auto"), ("width", "100")],
          accept := none } =
      Normalizer.resolveOptions
        { uri := "", querystring := [("width", "100")], accept := none } ∧
    Normalizer.getFormatByAccept (some "image/webp,image/*") = some "webp" :=
  ⟨mediax_c5.1 "" [("width", "100")] none (by decide), mediax_c5.2.2.1⟩

/-- Claim C2: when the directive string (final path segment) is the
sentinel `original`, the Transform Engine — after a successful download —
uploads the origin bytes to the cache tier under the canonical key with
the origin content type and origin metadata unchanged, invokes no
transform routine (the trace holds exactly the download and that upload),
and returns a success response carrying the original content as a
redirect for the client to re-fetch it. -/
theorem mediax_c2 (env : Engine.EngineEnv) (event : Engine.LambdaEvent)
    (obj : Engine.S3Object)
    (hauth : Engine.authOk env event = true)
    (hget : Engine.getOk event = true)
    (horig : (Engine.splitRequestPath (Engine.eventPath event)).2 = "original")
    (hdl : env.download (Engine.splitRequestPath (Engine.eventPath event)).1 =
      Except.ok obj)
    (hbucket : env.cacheBucketEnabled = true)
    (hup : env.uploadOk = true) :
    Engine.handler env event =
      ({ statusCode := 302,
         headers :=
           [("Location",
             "/" ++ Engine.encodeURI
               (Engine.splitRequestPath (Engine.eventPath event)).1),
            ("Cache-Control", "no-cache")] },
       [Engine.Op.getObject (Engine.splitRequestPath (Engine.eventPath event)).1,
        Engine.Op.putObject (Engine.cacheKeyOfPath (Engine.eventPath event))
          obj.body obj.contentType env.cacheTTL obj.metadata]) := by
  unfold Engine.handler
  rw [hauth, hget]
  simp only [Bool.not_true, Bool.false_eq_true, if_false, hdl, horig]
  simp [hbucket, hup, Engine.cacheKeyOfPath, horig]

/-- Witness for C2 at the concrete path `/a.jpg/original`. -/
theorem mediax_c2_witness :
    Engine.handler env0 (evGet "/a.jpg/original") =
      ({ statusCode := 302,
         headers :=
           [("Location",
             "/" ++ Engine.encodeURI
               (Engine.splitRequestPath (Engine.eventPath (evGet "/a.jpg/original"))).1),
            ("Cache-Control", "no-cache")] },
       [Engine.Op.getObject
          (Engine.splitRequestPath (Engine.eventPath (evGet "/a.jpg/original"))).1,
        Engine.Op.putObject
          (Engine.cacheKeyOfPath (Engine.eventPath (evGet "/a.jpg/original")))
          obj0.body obj0.contentType env0.cacheTTL obj0.metadata]) :=
  mediax_c2 env0 (evGet "/a.jpg/original") obj0 (by decide) (by decide)
    (by decide) (by rfl) (by decide) (by decide)

/-- The resize width `transImage` hands to sharp is always the raw
`parseInt` of the width directive, whatever format branch is taken. -/
theorem transImage_resizeWidth (env : Engine.EngineEnv) (body : List Nat)
    (ct : Option String) (opts : List (String × Option String)) :
    (Engine.transImage env body ct opts).call.resizeWidth =
      match Engine.getOpt opts "width" with
      | some v => some (jsParseInt v)
      | none => none := by
  unfold Engine.transImage
  cases h : Engine.resolveImageFormat (Engine.getOpt opts "format") with
  | none => rfl
  | some fmt =>
    simp only
    split <;> rfl

/-- Counterexample to claim C8: the directive string `width=abc` on an
`image/jpeg` origin does not fall back to the no-transform passthrough —
the engine dispatches to the image routine (sharp receives a `NaN` resize
width, modelled by the failing sharp oracle, as the real library throws on
`NaN`) and the request surfaces a transform-stage error. -/
theorem mediax_c8_counterexample :
    Engine.handler envSharpFail (evGet "/a.jpg/width=abc") =
      (Engine.newError "Transforming image failed",
       [Engine.Op.getObject "a.jpg",
        Engine.Op.sharp [1, 2, 3]
          { resizeWidth := some none, resizeHeight := none, rotate := false,
            toFormat := none }]) := by decide

/-- Claim C8 as amended: the engine falls back to the no-transform
passthrough exactly when the directive string is `original` or no
directive key relevant to the content kind is truthy; a malformed value
under a relevant key (e.g. a non-numeric width on an image request) is
not treated defensively — the transform routine is dispatched, sharp
receives the raw `parseInt` of the value (`NaN` when unparseable), and a
library failure surfaces as a transform-stage error rather than a
passthrough. -/
theorem mediax_c8_amended (env : Engine.EngineEnv)
    (event : Engine.LambdaEvent) (obj : Engine.S3Object)
    (origin optionString : String) (opts : List (String × Option String))
    (hauth : Engine.authOk env event = true)
    (hget : Engine.getOk event = true)
    (hsplit : Engine.splitRequestPath (Engine.eventPath event) =
      (origin, optionString))
    (hopts : Engine.resolveOptionsE optionString = opts)
    (hdl : env.download origin = Except.ok obj) :
    (optionString = "original" ∨
        Engine.isSupported obj.contentType opts = false →
      (Engine.handler env event).2 =
        Engine.Op.getObject origin ::
          (if env.cacheBucketEnabled then
            [Engine.Op.putObject (origin ++ "/" ++ optionString) obj.body
              obj.contentType env.cacheTTL obj.metadata]
          else [])) ∧
    (optionString ≠ "original" →
      Engine.isImage obj.contentType opts = true →
      (Engine.handler env event).2.take 2 =
        [Engine.Op.getObject origin,
         Engine.Op.sharp obj.body
           (Engine.transImage env obj.body obj.contentType opts).call] ∧
      (∀ v, Engine.getOpt opts "width" = some v →
        (Engine.transImage env obj.body obj.contentType opts).call.resizeWidth =
          some (jsParseInt v)) ∧
      ((Engine.transImage env obj.body obj.contentType opts).result =
          Except.error () →
        (Engine.handler env event).1 =
          Engine.newError "Transforming image failed")) := by
  have h1 : (Engine.splitRequestPath (Engine.eventPath event)).1 = origin := by
    rw [hsplit]
  have h2 : (Engine.splitRequestPath (Engine.eventPath event)).2 =
      optionString := by
    rw [hsplit]
  constructor
  · intro hpass
    unfold Engine.handler
    rw [hauth, hget]
    simp only [Bool.not_true, Bool.false_eq_true, if_false, h1, h2, hdl, hopts]
    rcases hpass with hor | hsup
    · subst hor
      cases hcb : env.cacheBucketEnabled <;> cases hupk : env.uploadOk <;> rfl
    · simp only [hsup, Bool.not_false, Bool.or_true]
      cases hcb : env.cacheBucketEnabled <;> cases hupk : env.uploadOk <;> rfl
  · intro hne himg
    have hd : decide (optionString = "original") = false := decide_eq_false hne
    have hct : Engine.isSupported obj.contentType opts = true := by
      cases hc : obj.contentType with
      | none =>
        rw [hc] at himg
        exact absurd himg (by simp [Engine.isImage])
      | some ct =>
        rw [hc] at himg
        simp [Engine.isSupported, himg]
    refine ⟨?_, ?_, ?_⟩
    · unfold Engine.handler
      rw [hauth, hget]
      simp only [Bool.not_true, Bool.false_eq_true, if_false, h1, h2, hdl, hopts]
      simp only [hd, hct, Bool.not_true, Bool.or_false,
        Bool.false_eq_true, if_false, himg, if_true]
      cases hcb : env.cacheBucketEnabled <;> cases hupk : env.uploadOk <;>
        cases hr : (Engine.transImage env obj.body obj.contentType opts).result <;>
          rfl
    · intro v hv
      rw [transImage_resizeWidth, hv]
    · intro hr
      unfold Engine.handler
      rw [hauth, hget]
      simp only [Bool.not_true, Bool.false_eq_true, if_false, h1, h2, hdl, hopts]
      simp only [hd, hct, Bool.not_true, Bool.or_false,
        Bool.false_eq_true, if_false, himg, if_true, hr]

/-- Witness for the amended C8 at the concrete malformed input
`/a.jpg/width=abc`. -/
theorem mediax_c8_witness :
    (Engine.handler envSharpFail (evGet "/a.jpg/width=abc")).2.take 2 =
      [Engine.Op.getObject "a.jpg",
       Engine.Op.sharp [1, 2, 3]
         (Engine.transImage envSharpFail [1, 2, 3] (some "image/jpeg")
           (Engine.resolveOptionsE "width=abc")).call] ∧
    (Engine.handler envSharpFail (evGet "/a.jpg/width=abc")).1 =
      Engine.newError "Transforming image failed" := by
  have h := (mediax_c8_amended envSharpFail (evGet "/a.jpg/width=abc") obj0
      "a.jpg" "width=abc" (Engine.resolveOptionsE "width=abc")
      (by decide) (by decide) (by decide) rfl (by rfl)).2
      (by decide) (by decide)
  exact ⟨h.1, h.2.2 (by rfl)⟩

/-! Normalizer step algebra used for claims C1 and C7. -/

theorem supported_facts (f : String) (hf : f ∈ Normalizer.SUPPORTED_FORMATS) :
    jsToLower f = f ∧ f ≠ "" ∧ f ≠ "auto" := by
  fin_cases hf <;> exact ⟨by decide, by decide, by decide⟩

theorem resolveStep_eq_stepLow (accept : Option String)
    (o : Normalizer.Options) (p : String × String) :
    Normalizer.resolveStep accept o p =
      Normalizer.stepLow accept o (jsToLower p.1, jsToLower p.2) := by
  have h0 : jsToLower "" = "" := rfl
  by_cases h1 : p.1 = ""
  · have hl : jsToLower p.1 = "" := by rw [h1]; rfl
    simp [Normalizer.resolveStep, Normalizer.stepLow, h1, hl, h0]
  · have hl : ¬jsToLower p.1 = "" := fun hc => h1 ((jsToLower_eq_empty p.1).mp hc)
    by_cases h2 : p.2 = ""
    · have hl2 : jsToLower p.2 = "" := by rw [h2]; rfl
      simp [Normalizer.resolveStep, Normalizer.stepLow, h1, h2, hl, hl2, h0]
    · have hl2 : ¬jsToLower p.2 = "" := fun hc => h2 ((jsToLower_eq_empty p.2).mp hc)
      simp [Normalizer.resolveStep, Normalizer.stepLow, h1, h2, hl, hl2]

theorem resolveOptions_eq_foldl (r : Normalizer.CFRequest) :
    Normalizer.resolveOptions r =
      (r.querystring.map (fun p => (jsToLower p.1, jsToLower p.2))).foldl
        (Normalizer.stepLow r.accept) {} := by
  unfold Normalizer.resolveOptions
  rw [List.foldl_map]
  congr 1
  funext o p
  exact resolveStep_eq_stepLow r.accept o p

theorem stepLow_eq_applyField (accept : Option String)
    (o : Normalizer.Options) (p : String × String) :
    Normalizer.stepLow accept o p =
      match Normalizer.fieldOf accept p with
      | some fv => Normalizer.setField o fv.1 fv.2
      | none => o := by
  unfold Normalizer.stepLow Normalizer.fieldOf Normalizer.applyOption
  split_ifs <;>
    first
      | rfl
      | (cases Normalizer.getFormatByAccept accept <;> rfl)
      | (cases Normalizer.getOptionValue p.2 4000 <;> rfl)
      | (cases Normalizer.getOptionValue p.2 100 <;> rfl)

theorem setField_comm (o : Normalizer.Options)
    (f g : Normalizer.DirectiveField) (v w : String) (h : f ≠ g) :
    Normalizer.setField (Normalizer.setField o f v) g w =
      Normalizer.setField (Normalizer.setField o g w) f v := by
  cases f <;> cases g <;> first | (exact absurd rfl h) | rfl

theorem fieldOf_key (accept : Option String) (p : String × String)
    (fv : Normalizer.DirectiveField × String)
    (h : Normalizer.fieldOf accept p = some fv) :
    Normalizer.keyOfField fv.1 = p.1 := by
  unfold Normalizer.fieldOf at h
  by_cases h1 : p.1 = ""
  · rw [if_pos h1] at h
    exact absurd h (by simp)
  rw [if_neg h1] at h
  by_cases h2 : p.2 = ""
  · rw [if_pos h2] at h
    exact absurd h (by simp)
  rw [if_neg h2] at h
  by_cases hf : p.1 = "format"
  · rw [if_pos hf] at h
    by_cases ha : p.2 = "auto"
    · rw [if_pos ha] at h
      cases hg : Normalizer.getFormatByAccept accept with
      | none => rw [hg] at h; exact absurd h (by simp)
      | some x =>
        rw [hg] at h
        simp only [Option.map_some'] at h
        injection h with h
        rw [← h, hf]
        rfl
    · rw [if_neg ha] at h
      by_cases hm : p.2 ∈ Normalizer.SUPPORTED_FORMATS
      · rw [if_pos hm] at h
        injection h with h
        rw [← h, hf]
        rfl
      · rw [if_neg hm] at h
        exact absurd h (by simp)
  rw [if_neg hf] at h
  by_cases hw : p.1 = "width"
  · rw [if_pos hw] at h
    cases hg : Normalizer.getOptionValue p.2 4000 with
    | none => rw [hg] at h; exact absurd h (by simp)
    | some x =>
      rw [hg] at h
      simp only [Option.map_some'] at h
      injection h with h
      rw [← h, hw]
      rfl
  rw [if_neg hw] at h
  by_cases hh : p.1 = "height"
  · rw [if_pos hh] at h
    cases hg : Normalizer.getOptionValue p.2 4000 with
    | none => rw [hg] at h; exact absurd h (by simp)
    | some x =>
      rw [hg] at h
      simp only [Option.map_some'] at h
      injection h with h
      rw [← h, hh]
      rfl
  rw [if_neg hh] at h
  by_cases hq : p.1 = "quality"
  · rw [if_pos hq] at h
    cases hg : Normalizer.getOptionValue p.2 100 with
    | none => rw [hg] at h; exact absurd h (by simp)
    | some x =>
      rw [hg] at h
      simp only [Option.map_some'] at h
      injection h with h
      rw [← h, hq]
      rfl
  rw [if_neg hq] at h
  by_cases hb : p.1 = "bitrate"
  · rw [if_pos hb] at h
    rw [if_neg h2] at h
    injection h with h
    rw [← h, hb]
    rfl
  · rw [if_neg hb] at h
    exact absurd h (by simp)

theorem stepLow_comm (accept : Option String) (p q : String × String)
    (hpq : p.1 = q.1 → p.2 = q.2) (z : Normalizer.Options) :
    Normalizer.stepLow accept (Normalizer.stepLow accept z p) q =
      Normalizer.stepLow accept (Normalizer.stepLow accept z q) p := by
  by_cases hk : p.1 = q.1
  · have hpq2 : p = q := Prod.ext hk (hpq hk)
    rw [hpq2]
  · simp only [stepLow_eq_applyField]
    cases hp : Normalizer.fieldOf accept p with
    | none =>
      cases hq : Normalizer.fieldOf accept q with
      | none => rfl
      | some fvq => rfl
    | some fvp =>
      cases hq : Normalizer.fieldOf accept q with
      | none => rfl
      | some fvq =>
        have hne : fvp.1 ≠ fvq.1 := by
          intro he
          exact hk (by
            rw [← fieldOf_key accept p fvp hp, ← fieldOf_key accept q fvq hq, he])
        show Normalizer.setField (Normalizer.setField z fvp.1 fvp.2) fvq.1 fvq.2 =
          Normalizer.setField (Normalizer.setField z fvq.1 fvq.2) fvp.1 fvp.2
        exact setField_comm z fvp.1 fvq.1 fvp.2 fvq.2 hne

/-- Counterexample to claim C1: two query maps carrying the same logical
lower-cased pairs — `width=100` and `WIDTH=200` in the two orders — are
normalized to different URIs (`width=200` versus `width=100`), because the
raw case-distinct keys are distinct map entries processed in order, last
write winning. -/
theorem mediax_c1_counterexample :
    Normalizer.handler
        { uri := "/a.jpg", querystring := [("width", "100"), ("WIDTH", "200")],
          accept := none } ≠
      Normalizer.handler
        { uri := "/a.jpg", querystring := [("WIDTH", "200"), ("width", "100")],
          accept := none } := by decide

/-- Claim C1 as amended: whenever every two query parameters sharing the
same lower-cased key also carry the same lower-cased value (in particular
whenever each logical key occurs once), two requests whose lower-cased
key/value pair lists are permutations of each other produce byte-identical
rewritten requests; and whenever the recognized directive set is
non-empty, the appended suffix lists the directives joined by `','` in the
fixed order format, quality, width, height, bitrate, regardless of
arrival order. -/
theorem mediax_c1_amended (r1 r2 : Normalizer.CFRequest)
    (huri : r1.uri = r2.uri) (hacc : r1.accept = r2.accept)
    (hperm : (r1.querystring.map (fun p => (jsToLower p.1, jsToLower p.2))).Perm
      (r2.querystring.map (fun p => (jsToLower p.1, jsToLower p.2))))
    (hfun : ∀ p ∈ r1.querystring.map (fun p => (jsToLower p.1, jsToLower p.2)),
      ∀ q ∈ r1.querystring.map (fun p => (jsToLower p.1, jsToLower p.2)),
        p.1 = q.1 → p.2 = q.2) :
    Normalizer.handler r1 = Normalizer.handler r2 ∧
    (∀ r : Normalizer.CFRequest,
      (Normalizer.resolveOptions r).isEmptyO = false →
      (Normalizer.handler r).uri =
        r.uri ++ "/" ++
          jsJoin "," (Normalizer.optionArrayOf (Normalizer.resolveOptions r))) := by
  obtain ⟨u1, q1, a1⟩ := r1
  obtain ⟨u2, q2, a2⟩ := r2
  simp only at huri hacc hperm hfun
  subst huri
  subst hacc
  have hres : Normalizer.resolveOptions ⟨u1, q1, a1⟩ =
      Normalizer.resolveOptions ⟨u1, q2, a1⟩ := by
    rw [resolveOptions_eq_foldl, resolveOptions_eq_foldl]
    exact hperm.foldl_eq'
      (fun x hx y hy z => stepLow_comm a1 x y (hfun x hx y hy) z) {}
  constructor
  · unfold Normalizer.handler
    rw [hres]
  · intro r hne
    unfold Normalizer.handler
    simp only [hne, Bool.not_false, if_true]
    rfl

/-- Witness for the amended C1: case- and order-shuffled `width`/`format`
parameters normalize to the same canonical URI with the fixed suffix
order. -/
theorem mediax_c1_witness :
    Normalizer.handler
        { uri := "/a.jpg", querystring := [("width", "100"), ("FORMAT", "WEBP")],
          accept := none } =
      Normalizer.handler
        { uri := "/a.jpg", querystring := [("format", "webp"), ("width", "100")],
          accept := none } ∧
    Normalizer.handler
        { uri := "/a.jpg", querystring := [("width", "100"), ("FORMAT", "WEBP")],
          accept := none } =
      { uri := "/a.jpg/format=webp,width=100", querystring := [],
        accept := none } :=
  ⟨(mediax_c1_amended _ _ rfl rfl (by decide)
      (by decide)).1,
   by decide⟩

/-! Well-formedness of normalized options and the directive-level
round trip, used for claim C7. -/

theorem getOptionValue_WF (v : String) (m : Int) (s : String)
    (hm : 1 ≤ m) (h : Normalizer.getOptionValue v m = some s) :
    ∃ n : Nat, 1 ≤ n ∧ (n : Int) ≤ m ∧ s = natToString n := by
  unfold Normalizer.getOptionValue at h
  cases hp : jsParseInt v with
  | none =>
    rw [hp] at h
    exact absurd h (by simp)
  | some value =>
    rw [hp] at h
    have h' : (if 0 < value then
        some (natToString (if m < value then m else value).toNat)
      else none) = some s := h
    by_cases hpos : 0 < value
    · rw [if_pos hpos] at h'
      injection h' with h'
      refine ⟨(if m < value then m else value).toNat, ?_, ?_, h'.symm⟩
      · by_cases hc : m < value
        · rw [if_pos hc]; omega
        · rw [if_neg hc]; omega
      · by_cases hc : m < value
        · rw [if_pos hc]; omega
        · rw [if_neg hc]; omega
    · rw [if_neg hpos] at h'
      exact absurd h' (by simp)

theorem getFormatByAccept_mem (accept : Option String) (f : String)
    (h : Normalizer.getFormatByAccept accept = some f) :
    f ∈ Normalizer.SUPPORTED_FORMATS := by
  cases accept with
  | none => exact absurd h (by simp [Normalizer.getFormatByAccept])
  | some a =>
    have heq : Normalizer.getFormatByAccept (some a) =
        if a = "" then none
        else Normalizer.SUPPORTED_FORMATS.find?
          (fun f => jsIncludes (jsToLower a) f) := rfl
    rw [heq] at h
    by_cases ha : a = ""
    · rw [if_pos ha] at h
      exact absurd h (by simp)
    · rw [if_neg ha] at h
      exact List.mem_of_find?_eq_some h

theorem WF_empty : Normalizer.WFOptions {} := by
  refine ⟨?_, ?_, ?_, ?_, ?_⟩ <;> (intro x hx; exact absurd hx (by simp))

theorem WF_setFormat (o : Normalizer.Options) (f : String)
    (h : Normalizer.WFOptions o) (hf : f ∈ Normalizer.SUPPORTED_FORMATS) :
    Normalizer.WFOptions { o with format := some f } := by
  refine ⟨?_, h.quality, h.width, h.height, h.bitrate⟩
  intro f' hf'
  injection hf' with hf'
  rw [← hf']
  exact hf

theorem WF_setQuality (o : Normalizer.Options) (q : String)
    (h : Normalizer.WFOptions o) (hq : Normalizer.WFValue 100 q) :
    Normalizer.WFOptions { o with quality := some q } := by
  refine ⟨h.format, ?_, h.width, h.height, h.bitrate⟩
  intro q' hq'
  injection hq' with hq'
  rw [← hq']
  exact hq

theorem WF_setWidth (o : Normalizer.Options) (w : String)
    (h : Normalizer.WFOptions o) (hw : Normalizer.WFValue 4000 w) :
    Normalizer.WFOptions { o with width := some w } := by
  refine ⟨h.format, h.quality, ?_, h.height, h.bitrate⟩
  intro w' hw'
  injection hw' with hw'
  rw [← hw']
  exact hw

theorem WF_setHeight (o : Normalizer.Options) (w : String)
    (h : Normalizer.WFOptions o) (hw : Normalizer.WFValue 4000 w) :
    Normalizer.WFOptions { o with height := some w } := by
  refine ⟨h.format, h.quality, h.width, ?_, h.bitrate⟩
  intro w' hw'
  injection hw' with hw'
  rw [← hw']
  exact hw

theorem WF_setBitrate (o : Normalizer.Options) (b : String)
    (h : Normalizer.WFOptions o) (hb : b ≠ "" ∧ jsToLower b = b) :
    Normalizer.WFOptions { o with bitrate := some b } := by
  refine ⟨h.format, h.quality, h.width, h.height, ?_⟩
  intro b' hb'
  injection hb' with hb'
  rw [← hb']
  exact hb

theorem getOptionValue_WFValue (v : String) (s : String)
    (m : Nat) (hm : 1 ≤ m)
    (h : Normalizer.getOptionValue v (m : Int) = some s) :
    Normalizer.WFValue m s := by
  obtain ⟨n, h1, h2, h3⟩ := getOptionValue_WF v m s (by exact_mod_cast hm) h
  exact ⟨n, h1, by exact_mod_cast h2, h3⟩

theorem stepLow_WF (accept : Option String) (o : Normalizer.Options)
    (k v : String) (hv : jsToLower v = v) (h : Normalizer.WFOptions o) :
    Normalizer.WFOptions (Normalizer.stepLow accept o (k, v)) := by
  unfold Normalizer.stepLow Normalizer.applyOption
  by_cases h1 : k = ""
  · simp only [h1, if_true, if_pos rfl]
    exact h
  rw [if_neg h1]
  by_cases h2 : v = ""
  · rw [if_pos h2]
    exact h
  rw [if_neg h2]
  by_cases hf : k = "format"
  · rw [if_pos hf]
    by_cases ha : v = "auto"
    · rw [if_pos ha]
      cases hg : Normalizer.getFormatByAccept accept with
      | none => exact h
      | some f => exact WF_setFormat o f h (getFormatByAccept_mem accept f hg)
    · rw [if_neg ha]
      by_cases hm : v ∈ Normalizer.SUPPORTED_FORMATS
      · rw [if_pos hm]
        exact WF_setFormat o v h hm
      · rw [if_neg hm]
        exact h
  rw [if_neg hf]
  by_cases hw : k = "width"
  · rw [if_pos hw]
    cases hg : Normalizer.getOptionValue v 4000 with
    | none => exact h
    | some w =>
      exact WF_setWidth o w h (getOptionValue_WFValue v w 4000 (by omega) hg)
  rw [if_neg hw]
  by_cases hh : k = "height"
  · rw [if_pos hh]
    cases hg : Normalizer.getOptionValue v 4000 with
    | none => exact h
    | some w =>
      exact WF_setHeight o w h (getOptionValue_WFValue v w 4000 (by omega) hg)
  rw [if_neg hh]
  by_cases hq : k = "quality"
  · rw [if_pos hq]
    cases hg : Normalizer.getOptionValue v 100 with
    | none => exact h
    | some q =>
      exact WF_setQuality o q h (getOptionValue_WFValue v q 100 (by omega) hg)
  rw [if_neg hq]
  by_cases hb : k = "bitrate"
  · rw [if_pos hb]
    rw [if_neg h2]
    exact WF_setBitrate o v h ⟨h2, hv⟩
  · rw [if_neg hb]
    exact h

theorem foldl_stepLow_WF (accept : Option String)
    (l : List (String × String)) (o : Normalizer.Options)
    (hl : ∀ p ∈ l, jsToLower p.2 = p.2) (h : Normalizer.WFOptions o) :
    Normalizer.WFOptions (l.foldl (Normalizer.stepLow accept) o) := by
  induction l generalizing o with
  | nil => exact h
  | cons p t ih =>
    exact ih _ (fun q hq => hl q (by simp [hq]))
      (stepLow_WF accept o p.1 p.2 (hl p (by simp)) h)

theorem resolveOptions_WF (r : Normalizer.CFRequest) :
    Normalizer.WFOptions (Normalizer.resolveOptions r) := by
  rw [resolveOptions_eq_foldl]
  apply foldl_stepLow_WF
  · intro p hp
    obtain ⟨q, hq, rfl⟩ := List.mem_map.mp hp
    exact jsToLower_idem q.2
  · exact WF_empty

theorem stepLow_format (accept : Option String) (a : Normalizer.Options)
    (f : String) (hf : f ∈ Normalizer.SUPPORTED_FORMATS) :
    Normalizer.stepLow accept a ("format", f) =
      { a with format := some f } := by
  obtain ⟨-, hne, hauto⟩ := supported_facts f hf
  simp [Normalizer.stepLow, Normalizer.applyOption, hne, hauto, hf]

theorem stepLow_width (accept : Option String) (a : Normalizer.Options)
    (n : Nat) (h1 : 1 ≤ n) (h2 : n ≤ 4000) :
    Normalizer.stepLow accept a ("width", natToString n) =
      { a with width := some (natToString n) } := by
  have hval : Normalizer.getOptionValue (natToString n) 4000 =
      some (natToString n) := by
    unfold Normalizer.getOptionValue
    rw [jsParseInt_natToString n]
    show (if 0 < (n : Int) then
        some (natToString (if (4000 : Int) < (n : Int) then (4000 : Int)
          else (n : Int)).toNat)
      else none) = some (natToString n)
    rw [if_pos (by exact_mod_cast h1),
      if_neg (Int.not_lt.mpr (by exact_mod_cast h2))]
    simp
  simp [Normalizer.stepLow, Normalizer.applyOption, natToString_ne_empty n,
    hval]

theorem stepLow_height (accept : Option String) (a : Normalizer.Options)
    (n : Nat) (h1 : 1 ≤ n) (h2 : n ≤ 4000) :
    Normalizer.stepLow accept a ("height", natToString n) =
      { a with height := some (natToString n) } := by
  have hval : Normalizer.getOptionValue (natToString n) 4000 =
      some (natToString n) := by
    unfold Normalizer.getOptionValue
    rw [jsParseInt_natToString n]
    show (if 0 < (n : Int) then
        some (natToString (if (4000 : Int) < (n : Int) then (4000 : Int)
          else (n : Int)).toNat)
      else none) = some (natToString n)
    rw [if_pos (by exact_mod_cast h1),
      if_neg (Int.not_lt.mpr (by exact_mod_cast h2))]
    simp
  simp [Normalizer.stepLow, Normalizer.applyOption, natToString_ne_empty n,
    hval]

theorem stepLow_quality (accept : Option String) (a : Normalizer.Options)
    (n : Nat) (h1 : 1 ≤ n) (h2 : n ≤ 100) :
    Normalizer.stepLow accept a ("quality", natToString n) =
      { a with quality := some (natToString n) } := by
  have hval : Normalizer.getOptionValue (natToString n) 100 =
      some (natToString n) := by
    unfold Normalizer.getOptionValue
    rw [jsParseInt_natToString n]
    show (if 0 < (n : Int) then
        some (natToString (if (100 : Int) < (n : Int) then (100 : Int)
          else (n : Int)).toNat)
      else none) = some (natToString n)
    rw [if_pos (by exact_mod_cast h1),
      if_neg (Int.not_lt.mpr (by exact_mod_cast h2))]
    simp
  simp [Normalizer.stepLow, Normalizer.applyOption, natToString_ne_empty n,
    hval]

theorem stepLow_bitrate (accept : Option String) (a : Normalizer.Options)
    (b : String) (hb : b ≠ "") :
    Normalizer.stepLow accept a ("bitrate", b) =
      { a with bitrate := some b } := by
  simp [Normalizer.stepLow, Normalizer.applyOption, hb]

theorem map_lower_piece (key : String) (hkey : jsToLower key = key)
    (vo : Option String) (hv : ∀ v, vo = some v → jsToLower v = v) :
    ((Normalizer.optPair key vo).map
      (fun p : String × String => (jsToLower p.1, jsToLower p.2))) =
      Normalizer.optPair key vo := by
  cases vo with
  | none => rfl
  | some v => simp [Normalizer.optPair, hkey, hv v rfl]

theorem optionsToPairs_lower (o : Normalizer.Options)
    (h : Normalizer.WFOptions o) :
    (Normalizer.optionsToPairs o).map
        (fun p => (jsToLower p.1, jsToLower p.2)) =
      Normalizer.optionsToPairs o := by
  unfold Normalizer.optionsToPairs
  rw [List.map_append, List.map_append, List.map_append, List.map_append]
  rw [map_lower_piece "format" (by decide) o.format
      (fun f hf => (supported_facts f (h.format f hf)).1),
    map_lower_piece "quality" (by decide) o.quality
      (fun q hq => by
        obtain ⟨n, -, -, rfl⟩ := h.quality q hq
        exact jsToLower_natToString n),
    map_lower_piece "width" (by decide) o.width
      (fun w hw => by
        obtain ⟨n, -, -, rfl⟩ := h.width w hw
        exact jsToLower_natToString n),
    map_lower_piece "height" (by decide) o.height
      (fun w hw => by
        obtain ⟨n, -, -, rfl⟩ := h.height w hw
        exact jsToLower_natToString n),
    map_lower_piece "bitrate" (by decide) o.bitrate
      (fun b hb => (h.bitrate b hb).2)]

theorem foldl_piece_format (accept : Option String) (a : Normalizer.Options)
    (fo : Option String)
    (hfo : ∀ f, fo = some f → f ∈ Normalizer.SUPPORTED_FORMATS) :
    (Normalizer.optPair "format" fo).foldl (Normalizer.stepLow accept) a =
      fo.elim a (fun f => { a with format := some f }) := by
  cases fo with
  | none => rfl
  | some f =>
    simp only [Normalizer.optPair, List.foldl_cons, List.foldl_nil,
      Option.elim]
    exact stepLow_format accept a f (hfo f rfl)

theorem foldl_piece_quality (accept : Option String) (a : Normalizer.Options)
    (qo : Option String)
    (hqo : ∀ q, qo = some q → Normalizer.WFValue 100 q) :
    (Normalizer.optPair "quality" qo).foldl (Normalizer.stepLow accept) a =
      qo.elim a (fun q => { a with quality := some q }) := by
  cases qo with
  | none => rfl
  | some q =>
    obtain ⟨n, h1, h2, rfl⟩ := hqo q rfl
    simp only [Normalizer.optPair, List.foldl_cons, List.foldl_nil,
      Option.elim]
    exact stepLow_quality accept a n h1 h2

theorem foldl_piece_width (accept : Option String) (a : Normalizer.Options)
    (wo : Option String)
    (hwo : ∀ w, wo = some w → Normalizer.WFValue 4000 w) :
    (Normalizer.optPair "width" wo).foldl (Normalizer.stepLow accept) a =
      wo.elim a (fun w => { a with width := some w }) := by
  cases wo with
  | none => rfl
  | some w =>
    obtain ⟨n, h1, h2, rfl⟩ := hwo w rfl
    simp only [Normalizer.optPair, List.foldl_cons, List.foldl_nil,
      Option.elim]
    exact stepLow_width accept a n h1 h2

theorem foldl_piece_height (accept : Option String) (a : Normalizer.Options)
    (wo : Option String)
    (hwo : ∀ w, wo = some w → Normalizer.WFValue 4000 w) :
    (Normalizer.optPair "height" wo).foldl (Normalizer.stepLow accept) a =
      wo.elim a (fun w => { a with height := some w }) := by
  cases wo with
  | none => rfl
  | some w =>
    obtain ⟨n, h1, h2, rfl⟩ := hwo w rfl
    simp only [Normalizer.optPair, List.foldl_cons, List.foldl_nil,
      Option.elim]
    exact stepLow_height accept a n h1 h2

theorem foldl_piece_bitrate (accept : Option String) (a : Normalizer.Options)
    (bo : Option String)
    (hbo : ∀ b, bo = some b → b ≠ "" ∧ jsToLower b = b) :
    (Normalizer.optPair "bitrate" bo).foldl (Normalizer.stepLow accept) a =
      bo.elim a (fun b => { a with bitrate := some b }) := by
  cases bo with
  | none => rfl
  | some b =>
    simp only [Normalizer.optPair, List.foldl_cons, List.foldl_nil,
      Option.elim]
    exact stepLow_bitrate accept a b (hbo b rfl).1

theorem resolveOptions_optionsToPairs (o : Normalizer.Options)
    (h : Normalizer.WFOptions o) (uri2 : String) (accept2 : Option String) :
    Normalizer.resolveOptions
        { uri := uri2, querystring := Normalizer.optionsToPairs o,
          accept := accept2 } = o := by
  rw [resolveOptions_eq_foldl]
  simp only
  rw [optionsToPairs_lower o h]
  unfold Normalizer.optionsToPairs
  rw [List.foldl_append, List.foldl_append, List.foldl_append,
    List.foldl_append]
  rw [foldl_piece_format accept2 _ o.format h.format]
  rw [foldl_piece_quality accept2 _ o.quality h.quality]
  rw [foldl_piece_width accept2 _ o.width h.width]
  rw [foldl_piece_height accept2 _ o.height h.height]
  rw [foldl_piece_bitrate accept2 _ o.bitrate h.bitrate]
  obtain ⟨fo, qo, wo, ho, bo⟩ := o
  cases fo <;> cases qo <;> cases wo <;> cases ho <;> cases bo <;> rfl

/-- Counterexample to claim C7: the normalizer handler is not idempotent
on requests — applied to its own output (canonical URI, empty query) it
appends a further `/original` segment. -/
theorem mediax_c7_counterexample :
    Normalizer.handler
        (Normalizer.handler
          { uri := "/a.jpg", querystring := [("width", "100")],
            accept := none }) ≠
      Normalizer.handler
        { uri := "/a.jpg", querystring := [("width", "100")],
          accept := none } := by decide

/-- Claim C7 as amended: the normalizer is idempotent at the directive
level, not at the request level. Re-normalizing the recognized directive
set of any request — feeding the canonical pairs back as query
parameters, under any Accept header — returns exactly the same directive
set (hence the same canonical serialization); but the handler applied to
its own output appends a fresh `/original` segment to the already
rewritten URI. -/
theorem mediax_c7_amended (r : Normalizer.CFRequest) (uri2 : String)
    (accept2 : Option String) :
    Normalizer.resolveOptions
        { uri := uri2,
          querystring := Normalizer.optionsToPairs (Normalizer.resolveOptions r),
          accept := accept2 } =
      Normalizer.resolveOptions r :=
  resolveOptions_optionsToPairs (Normalizer.resolveOptions r)
    (resolveOptions_WF r) uri2 accept2

end MediaX
